import Mathlib

/-!
# Verification of the ClusterArgoCD reconciliation engine

This file is a shallow embedding, in Lean 4, of the reconciliation /
multi-tenant lifecycle engine of the `argocd-operator` repository
(`controllers/clusterargocd`, `controllers/shared`, `pkg/component`), together
with proofs settling the specification claims about it.

Conventions of the embedding:
* Go maps `map[string]string` are modelled as association lists
  `List (String × String)`; lookup takes the first matching key (Go maps have
  unique keys, so this is faithful).
* Go errors are modelled as `Except String`; `IsNotFound` on a read is
  modelled by the store returning `none` rather than an error.
* The Kubernetes object store is modelled by an explicit `World` state; store
  faults (non-NotFound read errors, list/delete failures) are injected through
  a `Faults` record consulted by the store primitives.
* Every store write and every observable controller step appends an event to
  a trace, so ordering and write-count claims can be stated directly.
-/

namespace ArgoCDOperator

/-! ## Association-list helpers (model of Go `map[string]string`) -/

/-- First-match lookup in an association list (Go map read `m[k]`, comma-ok form). -/
def lookupKey {α : Type} : List (String × α) → String → Option α
  | [], _ => none
  | (k, v) :: rest, key => if k = key then some v else lookupKey rest key

/-- Go map read without comma-ok: missing string keys read as `""`. -/
def getL (m : List (String × String)) (k : String) : String :=
  (lookupKey m k).getD ""

/-- Go map assignment `m[k] = v`: overwrite in place, or append a new entry. -/
def setKey {α : Type} (m : List (String × α)) (k : String) (v : α) : List (String × α) :=
  if (lookupKey m k).isSome then
    m.map (fun p => if p.1 = k then (k, v) else p)
  else
    m ++ [(k, v)]

/-- Go `delete(m, k)`. -/
def removeKey {α : Type} (m : List (String × α)) (k : String) : List (String × α) :=
  m.filter (fun p => p.1 ≠ k)

/-! ## `pkg/component/util.go`: `addKubernetesData`

The Go function iterates over the live object's metadata map and copies into
the desired (`source`) map every key that matches one of the wildcard
patterns `*kubernetes.io*`, `*k8s.io*`, `*openshift.io*` (substring match, via
`glob.MatchStringInList` with `glob.GLOB`) and is not already present in the
desired map. -/

/-- `startsWithL l p` : `p` is an initial segment of `l` (on characters). -/
def startsWithL : List Char → List Char → Bool
  | _, [] => true
  | [], _ :: _ => false
  | x :: xs, y :: ys => x = y && startsWithL xs ys

/-- `containsSeq l p` : `p` occurs contiguously inside `l`. -/
def containsSeq : List Char → List Char → Bool
  | l, p =>
    startsWithL l p ||
      match l with
      | [] => false
      | _ :: xs => containsSeq xs p

/-- Substring containment on strings: what the glob pattern `*pat*` matches. -/
def strContainsSub (s pat : String) : Bool :=
  containsSeq s.data pat.data

/-- The wildcard patterns of `addKubernetesData`, applied to a key:
`*kubernetes.io*`, `*k8s.io*`, `*openshift.io*`. -/
def matchesKubernetesPattern (key : String) : Bool :=
  strContainsSub key "kubernetes.io" ||
    strContainsSub key "k8s.io" ||
    strContainsSub key "openshift.io"

/-- `addKubernetesData source live` (util.go:369-388): for each `(key, value)`
of `live`, if the key matches one of the Kubernetes patterns and is absent
from `source`, insert it; values already present in `source` are never
overridden.  The Go `for key, value := range live` loop mutates `source` in
place; appending the new entry is the faithful list rendering of a map insert
of an absent key. -/
def addKubernetesData : List (String × String) → List (String × String) → List (String × String)
  | source, [] => source
  | source, (key, value) :: rest =>
    if matchesKubernetesPattern key && (lookupKey source key).isNone then
      addKubernetesData (source ++ [(key, value)]) rest
    else
      addKubernetesData source rest

/-! ## `pkg/component/util.go`: `appendUniqueArgs`

`appendUniqueArgs(cmd, extraArgs)` merges a base command-line token list with
an override token list.  A token starting with `--` is a flag; a flag's value
is the next token when that token does not start with `--` (the empty string
`""` stands for "no value", exactly as in the Go code).  Flags seen in `cmd`
are non-repeatable; an exact flag+value pair already recorded is skipped; a
non-repeatable flag supplied again is removed from the accumulated result and
re-appended with the new value; other flags are appended and may repeat with
new values.  (The Go local `existing` map is written but never read, so it is
not part of the state here.) -/

/-- A token is a flag iff it starts with `--` (Go `strings.HasPrefix(arg, "--")`). -/
def isFlag (s : String) : Bool :=
  startsWithL s.data "--".data

/-- State of the merge: the `repeated` flag+value pairs seen so far, the set
of non-repeatable flags, and the accumulated `result`. -/
structure ArgState where
  repeated : List (String × String)
  nonRepeatable : List String
  result : List String
deriving DecidableEq, Repr

/-- The Go helper `add(flag, val)`: append the flag, and the value when non-empty. -/
def addToResult (res : List String) (flag val : String) : List String :=
  if val = "" then res ++ [flag] else res ++ [flag, val]

/-- One flag step of the first loop of `appendUniqueArgs` (util.go:291-309):
record the pair, mark the flag non-repeatable, append to the result. -/
def stepCmdFlag (st : ArgState) (a val : String) : ArgState :=
  { repeated := (a, val) :: st.repeated
    nonRepeatable := a :: st.nonRepeatable
    result := addToResult st.result a val }

/-- First loop of `appendUniqueArgs`: process the base `cmd` tokens. -/
def processCmd : List String → ArgState → ArgState
  | [], st => st
  | [a], st =>
    if isFlag a then stepCmdFlag st a ""
    else { st with result := st.result ++ [a] }
  | a :: b :: rest2, st =>
    if isFlag a then
      if isFlag b then processCmd (b :: rest2) (stepCmdFlag st a "")
      else processCmd rest2 (stepCmdFlag st a b)
    else
      processCmd (b :: rest2) { st with result := st.result ++ [a] }

/-- The inner removal loop of `appendUniqueArgs` (util.go:329-343): drop every
occurrence of the non-repeatable flag `arg` from the accumulated result,
together with the value token following it (`skipNext`) when that token is
not itself a flag. -/
def removeFlagOcc (arg : String) : List String → List String
  | [] => []
  | [x] => if x = arg then [] else [x]
  | x :: y :: ys =>
    if x = arg then
      if isFlag y then removeFlagOcc arg (y :: ys)
      else removeFlagOcc arg ys
    else
      x :: removeFlagOcc arg (y :: ys)

/-- One flag step of the second loop of `appendUniqueArgs` (util.go:312-356):
skip an exact duplicate pair; replace a non-repeatable flag (resetting its
recorded pairs to the new value, Go `repeated[arg] = map{val: true}`); append
a repeatable flag, recording the new pair. -/
def stepExtraFlag (st : ArgState) (a val : String) : ArgState :=
  if (a, val) ∈ st.repeated then st
  else if a ∈ st.nonRepeatable then
    { repeated := (a, val) :: st.repeated.filter (fun p => p.1 ≠ a)
      nonRepeatable := st.nonRepeatable
      result := addToResult (removeFlagOcc a st.result) a val }
  else
    { repeated := (a, val) :: st.repeated
      nonRepeatable := st.nonRepeatable
      result := addToResult st.result a val }

/-- Second loop of `appendUniqueArgs`: process the `extraArgs` tokens. -/
def processExtra : List String → ArgState → ArgState
  | [], st => st
  | [a], st =>
    if isFlag a then stepExtraFlag st a ""
    else { st with result := st.result ++ [a] }
  | a :: b :: rest2, st =>
    if isFlag a then
      if isFlag b then processExtra (b :: rest2) (stepExtraFlag st a "")
      else processExtra rest2 (stepExtraFlag st a b)
    else
      processExtra (b :: rest2) { st with result := st.result ++ [a] }

/-- `appendUniqueArgs cmd extraArgs` (util.go:276-363). -/
def appendUniqueArgs (cmd extraArgs : List String) : List String :=
  (processExtra extraArgs (processCmd cmd ⟨[], [], []⟩)).result

/-! ## Shared constants

Constants from the external `common` package and from
`controllers/clusterargocd`.  The first four values are the well-known
argocd-operator label keys; the two component-scoped managed-by keys live in
the external `common` package whose source is not part of this repository, so
their string values are modelled (only their distinctness from each other and
from the apps key is relevant anywhere). -/

def argoCDDeletionFinalizer : String := "argoproj.io/finalizer"

def argoCDKeyName : String := "app.kubernetes.io/name"

def argoCDKeyPartOf : String := "app.kubernetes.io/part-of"

def argoCDKeyManagedBy : String := "app.kubernetes.io/managed-by"

def argoCDAppName : String := "argocd"

def clusterArgoCDManagedByLabelKey : String :=
  "argocd.argoproj.io/managed-by-cluster-argocd"

def applicationSetManagedByLabelKey : String :=
  "argocd.argoproj.io/applicationset-managed-by-cluster-argocd"

def notificationsManagedByLabelKey : String :=
  "argocd.argoproj.io/notifications-managed-by-cluster-argocd"

def argoCDServerComponent : String := "server"

def argoCDApplicationControllerComponent : String := "application-controller"

def argoCDRepoServerComponent : String := "repo-server"

def argoCDApplicationSetControllerComponent : String := "applicationset-controller"

def argoCDNotificationsControllerComponent : String := "notifications-controller"

def argoCDDefaultNamespace : String := "argocd"

/-! ## Data model: ClusterArgoCD instance and Kubernetes objects -/

/-- One RBAC policy rule (`rbac/v1.PolicyRule`, the fields this repository sets). -/
structure PolicyRule where
  apiGroups : List String
  resources : List String
  verbs : List String
deriving DecidableEq, Repr

/-- `Spec.ApplicationSet` (pointer in Go, hence wrapped in `Option` at use sites). -/
structure ApplicationSetSpec where
  enabled : Option Bool
  sourceNamespaces : List String
deriving DecidableEq, Repr

/-- `Spec.Notifications` (value type in Go; zero value has `enabled = false`). -/
structure NotificationsSpec where
  enabled : Bool
  sourceNamespaces : List String
deriving DecidableEq, Repr

/-- `Spec.HA`. -/
structure HASpec where
  enabled : Bool
deriving DecidableEq, Repr

/-- `Spec.Server` (the fields used by `ReconcileServerService`). -/
structure ServerSpec where
  enabled : Bool
  serviceType : String
deriving DecidableEq, Repr

/-- `Spec.Repo` (the fields used by `ReconcileRepoServerService`). -/
structure RepoSpec where
  enabled : Bool
  remote : Option String
deriving DecidableEq, Repr

/-- `ClusterArgoCDSpec` (api/v1beta1/clusterargocd_types.go), restricted to the
fields the reconciliation engine reads. -/
structure ClusterArgoCDSpec where
  sourceNamespaces : List String
  applicationSet : Option ApplicationSetSpec
  notifications : NotificationsSpec
  ha : HASpec
  server : ServerSpec
  repo : RepoSpec
  controlPlaneNamespace : String
deriving DecidableEq, Repr

/-- A `ClusterArgoCD` custom resource. `deletionTimestamp` is modelled as the
boolean `GetDeletionTimestamp() != nil`. -/
structure ClusterArgoCD where
  name : String
  spec : ClusterArgoCDSpec
  finalizers : List String
  deletionTimestamp : Bool
deriving DecidableEq, Repr

/-- `IsDeletionFinalizerPresent` (clusterargocd_types.go:96-103). -/
def isDeletionFinalizerPresent (cr : ClusterArgoCD) : Bool :=
  cr.finalizers.contains argoCDDeletionFinalizer

/-- `getClusterArgoCDManagedByLabel` (util.go:36-38): the label value is the
instance name. -/
def getClusterArgoCDManagedByLabel (cr : ClusterArgoCD) : String :=
  cr.name

/-- `getTargetNamespace` (util.go:71-77). -/
def getTargetNamespace (cr : ClusterArgoCD) : String :=
  if cr.spec.controlPlaneNamespace ≠ "" then cr.spec.controlPlaneNamespace
  else argoCDDefaultNamespace

/-- `generateResourceName` (util.go:57-61): `<name>-<targetNamespace>-<component>`. -/
def generateResourceName (componentName : String) (cr : ClusterArgoCD)
    (targetNamespace : String) : String :=
  cr.name ++ "-" ++ targetNamespace ++ "-" ++ componentName

/-- `generateClusterRoleName` (util.go:64-67): `<name>-<component>`. -/
def generateClusterRoleName (componentName : String) (cr : ClusterArgoCD) : String :=
  cr.name ++ "-" ++ componentName

/-- `getServiceAccountName` (util.go:80-83): `<name>-<component>`. -/
def getServiceAccountNameFor (componentName : String) (cr : ClusterArgoCD) : String :=
  cr.name ++ "-" ++ componentName

/-- `getLabelsForClusterArgoCD` (role.go:114-122). -/
def getLabelsForClusterArgoCD (cr : ClusterArgoCD) : List (String × String) :=
  [(argoCDKeyName, cr.name), (argoCDKeyPartOf, argoCDAppName),
    (argoCDKeyManagedBy, argoCDAppName)]

/-- `getServerSourceNamespacePolicyRules` (sourcenamespace.go:274-293). -/
def getServerSourceNamespacePolicyRules : List PolicyRule :=
  [ { apiGroups := ["argoproj.io"], resources := ["applications"],
      verbs := ["get", "list", "watch", "create", "update", "patch", "delete"] },
    { apiGroups := ["argoproj.io"], resources := ["applicationsets"],
      verbs := ["get", "list", "watch", "create", "update", "patch", "delete"] },
    { apiGroups := ["argoproj.io"], resources := ["appprojects"],
      verbs := ["get", "list", "watch", "create", "update", "patch", "delete"] } ]

/-- `getApplicationControllerPolicyRules` (role.go:134-148). -/
def getApplicationControllerPolicyRules : List PolicyRule :=
  [ { apiGroups := ["*"], resources := ["*"], verbs := ["get", "list", "watch"] },
    { apiGroups := [""], resources := ["events"], verbs := ["create", "patch"] } ]

/-- `getServerPolicyRules` (role.go:150-164). -/
def getServerPolicyRules : List PolicyRule :=
  [ { apiGroups := ["*"], resources := ["*"], verbs := ["get", "list", "watch"] },
    { apiGroups := [""], resources := ["secrets", "configmaps"],
      verbs := ["get", "list", "watch"] } ]

/-- A Kubernetes `Namespace` object: name plus labels. -/
structure NamespaceObj where
  name : String
  labels : List (String × String)
deriving DecidableEq, Repr

/-- A namespaced RBAC `Role`. -/
structure RoleObj where
  name : String
  ns : String
  labels : List (String × String)
  rules : List PolicyRule
deriving DecidableEq, Repr

/-- A cluster-scoped RBAC `ClusterRole`. -/
structure ClusterRoleObj where
  name : String
  labels : List (String × String)
  rules : List PolicyRule
deriving DecidableEq, Repr

/-- A cluster-scoped RBAC `ClusterRoleBinding`; `subjects` are
(service-account name, namespace) pairs, `roleRefName` the referenced
ClusterRole. -/
structure ClusterRoleBindingObj where
  name : String
  labels : List (String × String)
  roleRefName : String
  subjects : List (String × String)
deriving DecidableEq, Repr

/-- A `ServiceAccount`. -/
structure ServiceAccountObj where
  name : String
  ns : String
  labels : List (String × String)
deriving DecidableEq, Repr

/-- A `Service` (the fields the shared service reconcilers compare). -/
structure ServiceObj where
  name : String
  ns : String
  labels : List (String × String)
  serviceType : String
  selector : List (String × String)
deriving DecidableEq, Repr

/-- The object-store state plus the reconciler's in-memory indexes
(`ReconcileClusterArgoCD` fields) and the per-instance token-renewal timer
map keys (`LocalUsers.TokenRenewalTimers`). -/
structure World where
  cr : ClusterArgoCD
  nss : List NamespaceObj
  roles : List RoleObj
  clusterRoles : List ClusterRoleObj
  clusterRoleBindings : List ClusterRoleBindingObj
  serviceAccounts : List ServiceAccountObj
  services : List ServiceObj
  timers : List String
  managedSourceNamespaces : List (String × String)
  managedApplicationSetSourceNamespaces : List (String × String)
  managedNotificationsSourceNamespaces : List (String × String)
deriving DecidableEq, Repr

/-- Store-fault injection: a name (or flag) listed here makes the
corresponding store call fail with a non-NotFound error, mirroring the error
returns the Go code checks after each client call. -/
structure Faults where
  getNamespace : List String
  updateNamespace : List String
  listNamespaces : Bool
  listClusterRoles : Bool
  listClusterRoleBindings : Bool
  deleteClusterRole : List String
  deleteClusterRoleBinding : List String
  getClusterRole : List String
  getClusterRoleBinding : List String
  getServiceAccount : List (String × String)
  getService : List (String × String)
  getRole : List (String × String)
deriving DecidableEq, Repr

/-- The fault-free store. -/
def noFaults : Faults :=
  { getNamespace := [], updateNamespace := [], listNamespaces := false
    listClusterRoles := false, listClusterRoleBindings := false
    deleteClusterRole := [], deleteClusterRoleBinding := []
    getClusterRole := [], getClusterRoleBinding := []
    getServiceAccount := [], getService := [], getRole := [] }

/-- Observable events: one per store write, plus the controller's
phase-log markers and in-memory timer cancellation. -/
inductive Ev where
  | updateNamespace (name : String)
  | createRole (ns name : String)
  | updateRole (ns name : String)
  | createClusterRole (name : String)
  | updateClusterRole (name : String)
  | deleteClusterRole (name : String)
  | createClusterRoleBinding (name : String)
  | updateClusterRoleBinding (name : String)
  | deleteClusterRoleBinding (name : String)
  | createServiceAccount (ns name : String)
  | updateServiceAccount (ns name : String)
  | createService (ns name : String)
  | updateService (ns name : String)
  | deleteService (ns name : String)
  | cancelTimers (instanceName : String)
  | removeFinalizer
  | addFinalizer
  | phase (label : String)
deriving DecidableEq, Repr

/-- Result of a reconciliation step: new world, emitted events, optional error. -/
structure Outcome where
  world : World
  trace : List Ev
  err : Option String
deriving DecidableEq, Repr

/-- A successful no-op outcome. -/
def okOut (w : World) : Outcome := { world := w, trace := [], err := none }

/-- A failed outcome that left the world untouched. -/
def errOut (w : World) (msg : String) : Outcome :=
  { world := w, trace := [], err := some msg }

/-- Sequencing: run `f` only when `o` succeeded (`if err != nil return err`). -/
def andThen (o : Outcome) (f : World → Outcome) : Outcome :=
  match o.err with
  | some _ => o
  | none =>
    let o' := f o.world
    { world := o'.world, trace := o.trace ++ o'.trace, err := o'.err }

/-- Error wrapping (`fmt.Errorf("...: %w", err)`). -/
def wrapIfErr (msg : String) (o : Outcome) : Outcome :=
  match o.err with
  | some e => { o with err := some (msg ++ ": " ++ e) }
  | none => o

/-! ## Store primitives -/

/-- `r.Get` of a Namespace: a fault is a non-NotFound error, absence is
NotFound (`none`). -/
def getNamespaceE (w : World) (f : Faults) (name : String) :
    Except String (Option NamespaceObj) :=
  if f.getNamespace.contains name then .error ("get namespace " ++ name)
  else .ok (w.nss.find? (fun n => n.name == name))

/-- `r.Update` of a Namespace: replace the stored object with the same name. -/
def updateNamespaceOut (w : World) (f : Faults) (n : NamespaceObj) : Outcome :=
  if f.updateNamespace.contains n.name then
    errOut w ("update namespace " ++ n.name)
  else
    { world := { w with nss := w.nss.map (fun m => if m.name == n.name then n else m) }
      trace := [.updateNamespace n.name]
      err := none }

/-- `r.List` of namespaces with a `MatchingLabels{key: val}` selector. -/
def listNamespacesWithLabel (w : World) (key val : String) : List NamespaceObj :=
  w.nss.filter (fun n => lookupKey n.labels key == some val)

/-! ## `controllers/clusterargocd/sourcenamespace.go` -/

/-- `createRoleInSourceNamespace` (sourcenamespace.go:198-226): build the
server Role for the source namespace; create it when absent; when it exists,
set its rules and issue an `Update` unconditionally. -/
def createRoleInSourceNamespace (f : Faults) (ns : String) (cr : ClusterArgoCD)
    (w : World) : Outcome :=
  let roleName := generateResourceName argoCDServerComponent cr ns
  let role : RoleObj :=
    { name := roleName, ns := ns, labels := getLabelsForClusterArgoCD cr
      rules := getServerSourceNamespacePolicyRules }
  if f.getRole.contains (ns, roleName) then
    errOut w ("get role " ++ ns ++ "/" ++ roleName)
  else
    match w.roles.find? (fun r => r.name == roleName && r.ns == ns) with
    | none =>
      { world := { w with roles := w.roles ++ [role] }
        trace := [.createRole ns roleName]
        err := none }
    | some existing =>
      let updated := { existing with rules := role.rules }
      { world :=
          { w with roles := (w.roles.map
              (fun r => if r.name == roleName && r.ns == ns then updated else r)) }
        trace := [.updateRole ns roleName]
        err := none }

/-- Loop body of `reconcileApplicationSourceNamespaces`
(sourcenamespace.go:84-117): per listed namespace, NotFound is skipped, a
read error aborts; the managed-by label is written when it differs (Go map
read of a missing key is `""`); the namespace is tracked and the server Role
is created/updated. -/
def reconcileAppSourceNamespacesLoop (f : Faults) (cr : ClusterArgoCD) :
    List String → World → Outcome
  | [], w => okOut w
  | ns :: rest, w =>
    match getNamespaceE w f ns with
    | .error e => errOut w ("failed to get namespace " ++ ns ++ ": " ++ e)
    | .ok none => reconcileAppSourceNamespacesLoop f cr rest w
    | .ok (some nsObj) =>
      let managedByLabel := getClusterArgoCDManagedByLabel cr
      let labelKey := clusterArgoCDManagedByLabelKey
      let afterLabel :=
        if getL nsObj.labels labelKey ≠ managedByLabel then
          wrapIfErr ("failed to update namespace " ++ ns ++ " labels")
            (updateNamespaceOut w f
              { nsObj with labels := setKey nsObj.labels labelKey managedByLabel })
        else okOut w
      andThen afterLabel (fun w1 =>
        let w2 := { w1 with managedSourceNamespaces :=
            (setKey w1.managedSourceNamespaces ns cr.name) }
        andThen
          (wrapIfErr ("failed to create role in namespace " ++ ns)
            (createRoleInSourceNamespace f ns cr w2))
          (fun w3 => reconcileAppSourceNamespacesLoop f cr rest w3))

/-- `reconcileApplicationSourceNamespaces` (sourcenamespace.go:77-120). -/
def reconcileApplicationSourceNamespaces (f : Faults) (cr : ClusterArgoCD)
    (w : World) : Outcome :=
  if cr.spec.sourceNamespaces.length = 0 then okOut w
  else reconcileAppSourceNamespacesLoop f cr cr.spec.sourceNamespaces w

/-- Loop body of `reconcileApplicationSetSourceNamespaces`
(sourcenamespace.go:131-155): label-only claim, no RBAC, no check of any
apps claim. -/
def reconcileAppSetSourceNamespacesLoop (f : Faults) (cr : ClusterArgoCD) :
    List String → World → Outcome
  | [], w => okOut w
  | ns :: rest, w =>
    match getNamespaceE w f ns with
    | .error e => errOut w ("failed to get namespace " ++ ns ++ ": " ++ e)
    | .ok none => reconcileAppSetSourceNamespacesLoop f cr rest w
    | .ok (some nsObj) =>
      let managedByLabel := getClusterArgoCDManagedByLabel cr
      let labelKey := applicationSetManagedByLabelKey
      let afterLabel :=
        if getL nsObj.labels labelKey ≠ managedByLabel then
          wrapIfErr ("failed to update namespace " ++ ns ++ " labels")
            (updateNamespaceOut w f
              { nsObj with labels := setKey nsObj.labels labelKey managedByLabel })
        else okOut w
      andThen afterLabel (fun w1 =>
        reconcileAppSetSourceNamespacesLoop f cr rest
          { w1 with managedApplicationSetSourceNamespaces :=
              setKey w1.managedApplicationSetSourceNamespaces ns cr.name })

/-- `reconcileApplicationSetSourceNamespaces` (sourcenamespace.go:123-158). -/
def reconcileApplicationSetSourceNamespaces (f : Faults) (cr : ClusterArgoCD)
    (w : World) : Outcome :=
  match cr.spec.applicationSet with
  | none => okOut w
  | some appSet =>
    if appSet.sourceNamespaces.length = 0 then okOut w
    else reconcileAppSetSourceNamespacesLoop f cr appSet.sourceNamespaces w

/-- Loop body of `reconcileNotificationsSourceNamespaces`
(sourcenamespace.go:169-193): label-only claim, no RBAC, no check of any
apps claim. -/
def reconcileNotificationsSourceNamespacesLoop (f : Faults) (cr : ClusterArgoCD) :
    List String → World → Outcome
  | [], w => okOut w
  | ns :: rest, w =>
    match getNamespaceE w f ns with
    | .error e => errOut w ("failed to get namespace " ++ ns ++ ": " ++ e)
    | .ok none => reconcileNotificationsSourceNamespacesLoop f cr rest w
    | .ok (some nsObj) =>
      let managedByLabel := getClusterArgoCDManagedByLabel cr
      let labelKey := notificationsManagedByLabelKey
      let afterLabel :=
        if getL nsObj.labels labelKey ≠ managedByLabel then
          wrapIfErr ("failed to update namespace " ++ ns ++ " labels")
            (updateNamespaceOut w f
              { nsObj with labels := setKey nsObj.labels labelKey managedByLabel })
        else okOut w
      andThen afterLabel (fun w1 =>
        reconcileNotificationsSourceNamespacesLoop f cr rest
          { w1 with managedNotificationsSourceNamespaces :=
              setKey w1.managedNotificationsSourceNamespaces ns cr.name })

/-- `reconcileNotificationsSourceNamespaces` (sourcenamespace.go:161-196). -/
def reconcileNotificationsSourceNamespaces (f : Faults) (cr : ClusterArgoCD)
    (w : World) : Outcome :=
  if !cr.spec.notifications.enabled || cr.spec.notifications.sourceNamespaces.length = 0 then
    okOut w
  else
    reconcileNotificationsSourceNamespacesLoop f cr
      cr.spec.notifications.sourceNamespaces w

/-- The `currentSourceNamespaces` set built by
`cleanupUnmanagedSourceNamespaces` (sourcenamespace.go:244-257): the union of
the three configured lists (the ApplicationSet list only when the pointer is
non-nil, the Notifications list only when enabled). -/
def currentSourceNamespacesOf (cr : ClusterArgoCD) : List String :=
  cr.spec.sourceNamespaces ++
    (match cr.spec.applicationSet with
      | some appSet => appSet.sourceNamespaces
      | none => []) ++
    (if cr.spec.notifications.enabled then cr.spec.notifications.sourceNamespaces
      else [])

/-- Removal loop of `cleanupUnmanagedSourceNamespaces`
(sourcenamespace.go:260-268): for each labelled namespace not in the current
set, drop the apps managed-by label and update; an update failure is only
logged (the loop continues and the function still succeeds). -/
def cleanupUnmanagedLoop (f : Faults) (labelKey : String) (current : List String) :
    List NamespaceObj → World → Outcome
  | [], w => okOut w
  | n :: rest, w =>
    if current.contains n.name then cleanupUnmanagedLoop f labelKey current rest w
    else
      let o := updateNamespaceOut w f { n with labels := removeKey n.labels labelKey }
      match o.err with
      | some _ => cleanupUnmanagedLoop f labelKey current rest w
      | none =>
        let restOut := cleanupUnmanagedLoop f labelKey current rest o.world
        { world := restOut.world, trace := o.trace ++ restOut.trace, err := restOut.err }

/-- `cleanupUnmanagedSourceNamespaces` (sourcenamespace.go:229-271): list the
namespaces labelled `{apps key: instance name}` and unlabel those no longer
configured.  Only the List call can fail. -/
def cleanupUnmanagedSourceNamespaces (f : Faults) (cr : ClusterArgoCD)
    (w : World) : Outcome :=
  if f.listNamespaces then errOut w "failed to list managed namespaces"
  else
    cleanupUnmanagedLoop f clusterArgoCDManagedByLabelKey
      (currentSourceNamespacesOf cr)
      (listNamespacesWithLabel w clusterArgoCDManagedByLabelKey
        (getClusterArgoCDManagedByLabel cr))
      w

/-- `reconcileSourceNamespaces` (sourcenamespace.go:39-74): the four phases
in order, each aborting the sequence on error with a wrapped message. -/
def reconcileSourceNamespaces (f : Faults) (cr : ClusterArgoCD) (w : World) : Outcome :=
  andThen
    (wrapIfErr "failed to reconcile application source namespaces"
      (reconcileApplicationSourceNamespaces f cr w))
    (fun w1 =>
      andThen
        (wrapIfErr "failed to reconcile applicationset source namespaces"
          (reconcileApplicationSetSourceNamespaces f cr w1))
        (fun w2 =>
          andThen
            (wrapIfErr "failed to reconcile notifications source namespaces"
              (reconcileNotificationsSourceNamespaces f cr w2))
            (fun w3 =>
              wrapIfErr "failed to cleanup unmanaged source namespaces"
                (cleanupUnmanagedSourceNamespaces f cr w3))))

/-! ## `controllers/clusterargocd/role.go` -/

/-- `clusterRoleNeedsUpdate` (role.go:104-111): compares only the rule count. -/
def clusterRoleNeedsUpdate (existing desired : ClusterRoleObj) : Bool :=
  existing.rules.length != desired.rules.length

/-- `reconcileClusterRole` (role.go:68-101): get, create when absent, update
rules/labels/annotations when `clusterRoleNeedsUpdate`. -/
def reconcileClusterRole (f : Faults) (componentName : String)
    (policyRules : List PolicyRule) (cr : ClusterArgoCD) (w : World) : Outcome :=
  let name := generateClusterRoleName componentName cr
  let desired : ClusterRoleObj :=
    { name := name, labels := getLabelsForClusterArgoCD cr, rules := policyRules }
  if f.getClusterRole.contains name then
    errOut w ("failed to get ClusterRole " ++ name)
  else
    match w.clusterRoles.find? (fun c => c.name == name) with
    | none =>
      { world := { w with clusterRoles := w.clusterRoles ++ [desired] }
        trace := [.createClusterRole name]
        err := none }
    | some existing =>
      if !clusterRoleNeedsUpdate existing desired then okOut w
      else
        let updated := { existing with rules := desired.rules, labels := desired.labels }
        { world :=
            { w with clusterRoles := (w.clusterRoles.map
                (fun c => if c.name == name then updated else c)) }
          trace := [.updateClusterRole name]
          err := none }

/-- `reconcileClusterRoles` (role.go:45-65): application-controller then server. -/
def reconcileClusterRoles (f : Faults) (cr : ClusterArgoCD) (w : World) : Outcome :=
  andThen
    (reconcileClusterRole f argoCDApplicationControllerComponent
      getApplicationControllerPolicyRules cr w)
    (fun w1 =>
      reconcileClusterRole f argoCDServerComponent getServerPolicyRules cr w1)

/-- `clusterRoleBindingNeedsUpdate` (role.go:226-239): RoleRef change or
subject-count change. -/
def clusterRoleBindingNeedsUpdate (existing desired : ClusterRoleBindingObj) : Bool :=
  existing.roleRefName != desired.roleRefName ||
    existing.subjects.length != desired.subjects.length

/-- `reconcileClusterRoleBinding` (role.go:167-223). -/
def reconcileClusterRoleBinding (f : Faults) (componentName targetNamespace : String)
    (cr : ClusterArgoCD) (w : World) : Outcome :=
  let name := generateClusterRoleName componentName cr
  let saName := getServiceAccountNameFor componentName cr
  let desired : ClusterRoleBindingObj :=
    { name := name, labels := getLabelsForClusterArgoCD cr
      roleRefName := name, subjects := [(saName, targetNamespace)] }
  if f.getClusterRoleBinding.contains name then
    errOut w ("failed to get ClusterRoleBinding " ++ name)
  else
    match w.clusterRoleBindings.find? (fun c => c.name == name) with
    | none =>
      { world := { w with clusterRoleBindings := w.clusterRoleBindings ++ [desired] }
        trace := [.createClusterRoleBinding name]
        err := none }
    | some existing =>
      if !clusterRoleBindingNeedsUpdate existing desired then okOut w
      else
        let updated :=
          { existing with
            roleRefName := desired.roleRefName
            subjects := desired.subjects
            labels := desired.labels }
        { world :=
            { w with clusterRoleBindings := (w.clusterRoleBindings.map
                (fun c => if c.name == name then updated else c)) }
          trace := [.updateClusterRoleBinding name]
          err := none }

/-- `reconcileClusterRoleBindings` (reconcile_resources.go:116-142). -/
def reconcileClusterRoleBindings (f : Faults) (cr : ClusterArgoCD) (w : World) : Outcome :=
  let targetNamespace := getTargetNamespace cr
  andThen
    (reconcileClusterRoleBinding f argoCDApplicationControllerComponent
      targetNamespace cr w)
    (fun w1 =>
      reconcileClusterRoleBinding f argoCDServerComponent targetNamespace cr w1)

/-! ## `controllers/shared/service.go`: ServiceAccounts and Services

The AutoTLS annotation logic (`ensureAutoTLSAnnotation`) is a no-op returning
`(false, nil)` when the OpenShift Route API is unavailable; the model fixes
the plain-Kubernetes platform, so the service reconcilers compare only the
fields the code then still compares. -/

/-- `serviceAccountNeedsUpdate` (service.go:633-655): label or annotation
maps differ (annotations are always empty here,
`getAnnotationsForClusterArgoCD` returns an empty map). -/
def serviceAccountNeedsUpdate (existing desired : ServiceAccountObj) : Bool :=
  existing.labels.length != desired.labels.length ||
    desired.labels.any (fun p => getL existing.labels p.1 != p.2)

/-- `reconcileServiceAccount` (service.go:590-630). -/
def reconcileServiceAccount (f : Faults) (componentName targetNamespace : String)
    (cr : ClusterArgoCD) (w : World) : Outcome :=
  let saName := getServiceAccountNameFor componentName cr
  let desired : ServiceAccountObj :=
    { name := saName, ns := targetNamespace, labels := getLabelsForClusterArgoCD cr }
  if f.getServiceAccount.contains (targetNamespace, saName) then
    errOut w ("failed to get ServiceAccount " ++ targetNamespace ++ "/" ++ saName)
  else
    match w.serviceAccounts.find? (fun s => s.name == saName && s.ns == targetNamespace) with
    | none =>
      { world := { w with serviceAccounts := w.serviceAccounts ++ [desired] }
        trace := [.createServiceAccount targetNamespace saName]
        err := none }
    | some existing =>
      if !serviceAccountNeedsUpdate existing desired then okOut w
      else
        let updated := { existing with labels := desired.labels }
        { world :=
            { w with serviceAccounts := (w.serviceAccounts.map
                (fun s => if s.name == saName && s.ns == targetNamespace then updated else s)) }
          trace := [.updateServiceAccount targetNamespace saName]
          err := none }

/-- `reconcileServiceAccounts` (service.go:544-587): three fixed components,
then ApplicationSet (if configured and enabled) and Notifications (if
enabled). -/
def reconcileServiceAccounts (f : Faults) (cr : ClusterArgoCD) (w : World) : Outcome :=
  let targetNamespace := getTargetNamespace cr
  andThen (reconcileServiceAccount f argoCDApplicationControllerComponent targetNamespace cr w)
    (fun w1 =>
      andThen (reconcileServiceAccount f argoCDServerComponent targetNamespace cr w1)
        (fun w2 =>
          andThen (reconcileServiceAccount f argoCDRepoServerComponent targetNamespace cr w2)
            (fun w3 =>
              let afterAppSet :=
                match cr.spec.applicationSet with
                | some appSet =>
                  if appSet.enabled.getD true then
                    reconcileServiceAccount f argoCDApplicationSetControllerComponent
                      targetNamespace cr w3
                  else okOut w3
                | none => okOut w3
              andThen afterAppSet (fun w4 =>
                if cr.spec.notifications.enabled then
                  reconcileServiceAccount f argoCDNotificationsControllerComponent
                    targetNamespace cr w4
                else okOut w4))))

/-- `makeLabelsForService` (service.go:174-180), with
`common.DefaultLabels(instanceName)` modelled as the standard
name/part-of/managed-by triple. -/
def makeLabelsForService (instanceName component : String) : List (String × String) :=
  let serviceName := instanceName ++ "-" ++ component
  [(argoCDKeyName, serviceName), (argoCDKeyPartOf, argoCDAppName),
    (argoCDKeyManagedBy, argoCDAppName)]

/-- `getServiceType` (service.go:166-171). -/
def getServiceTypeOf (serverSpec : ServerSpec) : String :=
  if serverSpec.serviceType.length > 0 then serverSpec.serviceType else "ClusterIP"

/-- `ReconcileServerService` (service.go:50-163), on the plain-Kubernetes
platform (no AutoTLS annotation handling). -/
def reconcileServerServiceShared (f : Faults) (instanceName namespace' : String)
    (serverSpec : ServerSpec) (w : World) : Outcome :=
  let serviceName := instanceName ++ "-server"
  let svc : ServiceObj :=
    { name := serviceName, ns := namespace'
      labels := makeLabelsForService instanceName "server"
      serviceType := getServiceTypeOf serverSpec
      selector := [(argoCDKeyName, serviceName)] }
  if f.getService.contains (namespace', serviceName) then
    errOut w ("failed to get Service " ++ namespace' ++ "/" ++ serviceName)
  else
    match w.services.find? (fun s => s.name == serviceName && s.ns == namespace') with
    | some existing =>
      if !serverSpec.enabled then
        { world :=
            { w with services := (w.services.filter
                (fun s => !(s.name == serviceName && s.ns == namespace'))) }
          trace := [.deleteService namespace' serviceName]
          err := none }
      else if existing.serviceType != svc.serviceType then
        let updated := { existing with serviceType := svc.serviceType }
        { world :=
            { w with services := (w.services.map
                (fun s => if s.name == serviceName && s.ns == namespace' then updated else s)) }
          trace := [.updateService namespace' serviceName]
          err := none }
      else okOut w
    | none =>
      if !serverSpec.enabled then okOut w
      else
        { world := { w with services := w.services ++ [svc] }
          trace := [.createService namespace' serviceName]
          err := none }

/-- `ReconcileRepoServerService` (service.go:239-343), on the
plain-Kubernetes platform. -/
def reconcileRepoServerServiceShared (f : Faults) (instanceName namespace' : String)
    (repoSpec : RepoSpec) (w : World) : Outcome :=
  let serviceName := instanceName ++ "-repo-server"
  let svc : ServiceObj :=
    { name := serviceName, ns := namespace'
      labels := makeLabelsForService instanceName "repo-server"
      serviceType := "ClusterIP"
      selector := [(argoCDKeyName, serviceName)] }
  if f.getService.contains (namespace', serviceName) then
    errOut w ("failed to get Service " ++ namespace' ++ "/" ++ serviceName)
  else
    match w.services.find? (fun s => s.name == serviceName && s.ns == namespace') with
    | some _ =>
      if !repoSpec.enabled || repoSpec.remote.isSome then
        { world :=
            { w with services := (w.services.filter
                (fun s => !(s.name == serviceName && s.ns == namespace'))) }
          trace := [.deleteService namespace' serviceName]
          err := none }
      else okOut w
    | none =>
      if !repoSpec.enabled then okOut w
      else if repoSpec.remote.isSome then okOut w
      else
        { world := { w with services := w.services ++ [svc] }
          trace := [.createService namespace' serviceName]
          err := none }

/-- `ReconcileMetricsService` (service.go:452-511): create when absent,
never update. -/
def reconcileMetricsServiceShared (f : Faults) (instanceName namespace' : String)
    (w : World) : Outcome :=
  let serviceName := instanceName ++ "-metrics"
  let appControllerName := instanceName ++ "-application-controller"
  let svc : ServiceObj :=
    { name := serviceName, ns := namespace'
      labels := makeLabelsForService instanceName "metrics"
      serviceType := "ClusterIP"
      selector := [(argoCDKeyName, appControllerName)] }
  if f.getService.contains (namespace', serviceName) then
    errOut w ("failed to get Service " ++ namespace' ++ "/" ++ serviceName)
  else
    match w.services.find? (fun s => s.name == serviceName && s.ns == namespace') with
    | some _ => okOut w
    | none =>
      { world := { w with services := w.services ++ [svc] }
        trace := [.createService namespace' serviceName]
        err := none }

/-! ## ClusterArgoCD target-namespace orchestrators (unnamed parts 001-003)

The Deployment and StatefulSet leaf reconcilers in the source are logging
stubs that return `nil`; they are embedded as the corresponding no-ops. -/

/-- `reconcileServices` (part_001:25-51): server, repo-server, metrics, redis
(the redis leaf is a logging stub). -/
def reconcileServices (f : Faults) (cr : ClusterArgoCD) (w : World) : Outcome :=
  let targetNamespace := getTargetNamespace cr
  andThen (reconcileServerServiceShared f cr.name targetNamespace cr.spec.server w)
    (fun w1 =>
      andThen (reconcileRepoServerServiceShared f cr.name targetNamespace cr.spec.repo w1)
        (fun w2 => reconcileMetricsServiceShared f cr.name targetNamespace w2))

/-- `reconcileDeployments` (part_002:24-65): every leaf
(`reconcileServerDeployment` etc.) is a logging stub returning `nil`, so the
orchestrator is a successful no-op. -/
def reconcileDeployments (_f : Faults) (_cr : ClusterArgoCD) (w : World) : Outcome :=
  okOut w

/-- `reconcileStatefulSets` (part_003:24-43): both leaves are logging stubs
returning `nil`. -/
def reconcileStatefulSets (_f : Faults) (_cr : ClusterArgoCD) (w : World) : Outcome :=
  okOut w

/-- `reconcileTargetNamespaceResources` (reconcile_resources.go:93-113). -/
def reconcileTargetNamespaceResources (f : Faults) (cr : ClusterArgoCD)
    (w : World) : Outcome :=
  andThen
    { world := w, trace := [.phase "Services"], err := none }
    (fun w0 =>
      andThen (reconcileServices f cr w0)
        (fun w1 =>
          andThen { world := w1, trace := [.phase "Deployments"], err := none }
            (fun w1' =>
              andThen (reconcileDeployments f cr w1')
                (fun w2 =>
                  andThen { world := w2, trace := [.phase "StatefulSets"], err := none }
                    (fun w2' => reconcileStatefulSets f cr w2')))))

/-- `reconcileResources` (reconcile_resources.go:26-89): the six phases in
order, each aborting the whole pass on error (`if err != nil { return err }`);
the `phase` events are the `log.Info("reconciling ...")` markers the function
emits when it enters a phase. -/
def reconcileResources (f : Faults) (cr : ClusterArgoCD) (w : World) : Outcome :=
  andThen { world := w, trace := [.phase "ClusterRoles"], err := none }
    (fun w0 =>
      andThen (reconcileClusterRoles f cr w0)
        (fun w1 =>
          andThen { world := w1, trace := [.phase "ClusterRoleBindings"], err := none }
            (fun w1' =>
              andThen (reconcileClusterRoleBindings f cr w1')
                (fun w2 =>
                  andThen { world := w2, trace := [.phase "ServiceAccounts"], err := none }
                    (fun w2' =>
                      andThen (reconcileServiceAccounts f cr w2')
                        (fun w3 =>
                          andThen
                            { world := w3, trace := [.phase "TargetNamespaceResources"], err := none }
                            (fun w3' =>
                              andThen (reconcileTargetNamespaceResources f cr w3')
                                (fun w4 =>
                                  let afterAppSet :=
                                    match cr.spec.applicationSet with
                                    | some appSet =>
                                      if appSet.enabled.getD true then
                                        { world := w4
                                          trace := [.phase "ApplicationSetIntegration"]
                                          err := none }
                                      else okOut w4
                                    | none => okOut w4
                                  andThen afterAppSet (fun w5 =>
                                    if cr.spec.notifications.enabled then
                                      { world := w5
                                        trace := [.phase "NotificationsIntegration"]
                                        err := none }
                                    else okOut w5)))))))))

/-! ## `controllers/clusterargocd/finalizer.go` and the deletion path of
`internalReconcile` (clusterargocd_controller.go:180-211) -/

/-- `addDeletionFinalizer` (finalizer.go:39-48). -/
def addDeletionFinalizer (w : World) : Outcome :=
  { world := { w with cr := { w.cr with finalizers := w.cr.finalizers ++ [argoCDDeletionFinalizer] } }
    trace := [.addFinalizer]
    err := none }

/-- `removeDeletionFinalizer` (finalizer.go:51-68). -/
def removeDeletionFinalizer (w : World) : Outcome :=
  { world :=
      { w with cr :=
          { w.cr with finalizers := (w.cr.finalizers.filter
              (fun x => !(x == argoCDDeletionFinalizer))) } }
    trace := [.removeFinalizer]
    err := none }

/-- Deletion loop over the labelled ClusterRoles (finalizer.go:90-96): a
delete error (other than NotFound) aborts; absence tolerated by construction. -/
def deleteClusterRolesLoop (f : Faults) : List ClusterRoleObj → World → Outcome
  | [], w => okOut w
  | c :: rest, w =>
    if f.deleteClusterRole.contains c.name then
      errOut w ("failed to delete ClusterRole " ++ c.name)
    else
      andThen
        { world := { w with clusterRoles := w.clusterRoles.filter (fun x => !(x.name == c.name)) }
          trace := [.deleteClusterRole c.name]
          err := none }
        (fun w1 => deleteClusterRolesLoop f rest w1)

/-- Deletion loop over the labelled ClusterRoleBindings (finalizer.go:105-111). -/
def deleteClusterRoleBindingsLoop (f : Faults) : List ClusterRoleBindingObj → World → Outcome
  | [], w => okOut w
  | c :: rest, w =>
    if f.deleteClusterRoleBinding.contains c.name then
      errOut w ("failed to delete ClusterRoleBinding " ++ c.name)
    else
      andThen
        { world :=
            { w with clusterRoleBindings := (w.clusterRoleBindings.filter
                (fun x => !(x.name == c.name))) }
          trace := [.deleteClusterRoleBinding c.name]
          err := none }
        (fun w1 => deleteClusterRoleBindingsLoop f rest w1)

/-- `deleteClusterResources` (finalizer.go:71-115): list and delete the
ClusterRoles, then the ClusterRoleBindings, carrying the label selector
`{app.kubernetes.io/name: <instance name>}`. -/
def deleteClusterResources (f : Faults) (cr : ClusterArgoCD) (w : World) : Outcome :=
  if f.listClusterRoles then errOut w "failed to list ClusterRoles for deletion"
  else
    andThen
      (deleteClusterRolesLoop f
        (w.clusterRoles.filter (fun c => lookupKey c.labels argoCDKeyName == some cr.name)) w)
      (fun w1 =>
        if f.listClusterRoleBindings then
          errOut w1 "failed to list ClusterRoleBindings for deletion"
        else
          deleteClusterRoleBindingsLoop f
            (w1.clusterRoleBindings.filter
              (fun c => lookupKey c.labels argoCDKeyName == some cr.name))
            w1)

/-- `cleanupAllSourceNamespaces` (finalizer.go:118-138): run
`cleanupUnmanagedSourceNamespaces` against a same-named instance with an
empty spec, so every labelled namespace is unlabelled. -/
def cleanupAllSourceNamespaces (f : Faults) (cr : ClusterArgoCD) (w : World) : Outcome :=
  let emptyClusterArgoCD : ClusterArgoCD :=
    { name := cr.name
      spec :=
        { sourceNamespaces := [], applicationSet := none
          notifications := { enabled := false, sourceNamespaces := [] }
          ha := { enabled := false }
          server := { enabled := false, serviceType := "" }
          repo := { enabled := false, remote := none }
          controlPlaneNamespace := "" }
      finalizers := [], deletionTimestamp := false }
  wrapIfErr "failed to cleanup source namespaces"
    (cleanupUnmanagedSourceNamespaces f emptyClusterArgoCD w)

/-- `cleanupClusterInstanceTokenTimers` (finalizer.go:141-165): drop every
timer key that is longer than the instance name and starts with it; purely
in-memory, cannot fail. -/
def cleanupClusterInstanceTokenTimers (name : String) (w : World) : World × List Ev :=
  let matches' := fun k : String =>
    k.length > name.length && startsWithL k.data name.data
  ({ w with timers := w.timers.filter (fun k => !(matches' k)) }, [.cancelTimers name])

/-- The deletion branch of `internalReconcile`
(clusterargocd_controller.go:181-211), entered when the deletion timestamp is
set: cancel the instance's token-renewal timers, then — only when the
finalizer is present — delete the labelled cluster resources, clean up all
source namespaces, and remove the finalizer, each step aborting the sequence
on error. -/
def internalReconcileDeletion (f : Faults) (w : World) : Outcome :=
  let w1 := (cleanupClusterInstanceTokenTimers w.cr.name w).1
  let t1 := (cleanupClusterInstanceTokenTimers w.cr.name w).2
  if isDeletionFinalizerPresent w1.cr then
    let rest :=
      andThen
        (wrapIfErr "failed to delete ClusterResources" (deleteClusterResources f w1.cr w1))
        (fun w2 =>
          andThen
            (wrapIfErr "failed to cleanup source namespaces"
              (cleanupAllSourceNamespaces f w2.cr w2))
            (fun w3 => removeDeletionFinalizer w3))
    { world := rest.world, trace := t1 ++ rest.trace, err := rest.err }
  else { world := w1, trace := t1, err := none }

/-! ## `controllers/shared/redis.go`: the update decision of
`ReconcileRedisDeployment` (redis.go:636-724) and
`updateNodePlacementForDeployment` (redis.go:1088-1106)

The existing-Deployment update path compares ten operator-managed fields in
a fixed order, accumulating `changed` and a comma-joined `explanation`, and
issues a single `Update` at the end iff `changed`.  Each compared field is
modelled as a value with decidable equality (the Go comparisons are `!=` or
`reflect.DeepEqual`). -/

/-- The operator-managed Deployment fields compared by
`ReconcileRedisDeployment`. -/
structure RedisDeployFields where
  image : String
  imagePullPolicy : String
  nodeSelector : List (String × String)
  tolerations : List String
  args : List String
  env : List (String × String)
  resources : List (String × String)
  containerSecurityContext : List (String × String)
  podSecurityContext : List (String × String)
  serviceAccountName : String
deriving DecidableEq, Repr

/-- One `if <differs> { ...; if changed { explanation += ", " };
explanation += <name>; changed = true }` block. -/
def diffStep (acc : Bool × String) (differs : Bool) (name : String) : Bool × String :=
  if differs then
    (true, (if acc.1 then acc.2 ++ ", " else acc.2) ++ name)
  else acc

/-- The comparisons of the update path, in source order: container image and
image pull policy (redis.go:645-659), node placement
(`updateNodePlacementForDeployment`, redis.go:661 and 1088-1106), then args,
env, resources, container security context, pod security context and
serviceAccountName (redis.go:663-716), each paired with the explanation
fragment the code appends. -/
def redisDeploymentFieldDiffs (existing desired : RedisDeployFields) :
    List (Bool × String) :=
  [ (decide (existing.image ≠ desired.image), "container image"),
    (decide (existing.imagePullPolicy ≠ desired.imagePullPolicy), "image pull policy"),
    (decide (existing.nodeSelector ≠ desired.nodeSelector), "node selector"),
    (decide (existing.tolerations ≠ desired.tolerations), "tolerations"),
    (decide (existing.args ≠ desired.args), "container args"),
    (decide (existing.env ≠ desired.env), "container env"),
    (decide (existing.resources ≠ desired.resources), "container resources"),
    (decide (existing.containerSecurityContext ≠ desired.containerSecurityContext),
      "container security context"),
    (decide (existing.podSecurityContext ≠ desired.podSecurityContext),
      "pod security context"),
    (decide (existing.serviceAccountName ≠ desired.serviceAccountName),
      "serviceAccountName") ]

/-- The `changed` / `explanation` pair after the comparison sequence
(redis.go:637-716). -/
def redisDeploymentChanged (existing desired : RedisDeployFields) : Bool × String :=
  (redisDeploymentFieldDiffs existing desired).foldl
    (fun acc p => diffStep acc p.1 p.2) (false, "")

/-- The write calls the update path then issues (redis.go:718-723): one
`Update` carrying the explanation when `changed`, none otherwise. -/
def redisDeploymentUpdateCalls (existing desired : RedisDeployFields) : List String :=
  let c := redisDeploymentChanged existing desired
  if c.1 then ["Update: " ++ c.2] else []

/-- Comma-joining of a list of field names (the shape the aggregated
explanation is claimed to have). -/
def joinComma : List String → String
  | [] => ""
  | [x] => x
  | x :: y :: t => x ++ ", " ++ joinComma (y :: t)

/-! ## Concrete instances and worlds used by the claim theorems -/

/-- A spec with every optional feature off/empty. -/
def baseSpec : ClusterArgoCDSpec :=
  { sourceNamespaces := [], applicationSet := none
    notifications := { enabled := false, sourceNamespaces := [] }
    ha := { enabled := false }
    server := { enabled := true, serviceType := "" }
    repo := { enabled := true, remote := none }
    controlPlaneNamespace := "" }

/-- A world with no objects besides the instance itself. -/
def emptyWorldFor (cr : ClusterArgoCD) : World :=
  { cr := cr, nss := [], roles := [], clusterRoles := [], clusterRoleBindings := []
    serviceAccounts := [], services := [], timers := []
    managedSourceNamespaces := [], managedApplicationSetSourceNamespaces := []
    managedNotificationsSourceNamespaces := [] }

/-- Instance `b` listing `ns1` in its apps source-namespace list. -/
def crB_apps : ClusterArgoCD :=
  { name := "b", spec := { baseSpec with sourceNamespaces := ["ns1"] }
    finalizers := [argoCDDeletionFinalizer], deletionTimestamp := false }

/-- World for C1: `ns1` already carries the apps claim of the *other*
instance `a`. -/
def worldC1 : World :=
  { emptyWorldFor crB_apps with
    nss := [{ name := "ns1", labels := [(clusterArgoCDManagedByLabelKey, "a")] }] }

/-- Instance `b` with an empty apps list but `ns1` in its app-set
source-namespace list. -/
def crB_appset : ClusterArgoCD :=
  { name := "b"
    spec := { baseSpec with
      applicationSet := some { enabled := none, sourceNamespaces := ["ns1"] } }
    finalizers := [argoCDDeletionFinalizer], deletionTimestamp := false }

/-- World for C2: `ns1` exists and carries no claim at all (in particular no
apps claim by `b`). -/
def worldC2 : World :=
  { emptyWorldFor crB_appset with nss := [{ name := "ns1", labels := [] }] }

/-- Instance `a`, finalizer present, marked for deletion. -/
def crA_deleting : ClusterArgoCD :=
  { name := "a", spec := baseSpec
    finalizers := [argoCDDeletionFinalizer], deletionTimestamp := true }

/-- World for C3: one claimed namespace, one labelled ClusterRole, one
instance timer. -/
def worldC3 : World :=
  { emptyWorldFor crA_deleting with
    nss := [{ name := "ns1", labels := [(clusterArgoCDManagedByLabelKey, "a")] }]
    clusterRoles := [{ name := "a-server", labels := [(argoCDKeyName, "a")], rules := [] }]
    timers := ["a/admin"] }

/-- World for C4: instance `a` deleting while claiming three source
namespaces, each holding the Role it provisioned. -/
def worldC4 : World :=
  { emptyWorldFor crA_deleting with
    nss :=
      [ { name := "ns1", labels := [(clusterArgoCDManagedByLabelKey, "a")] },
        { name := "ns2", labels := [(clusterArgoCDManagedByLabelKey, "a")] },
        { name := "ns3", labels := [(clusterArgoCDManagedByLabelKey, "a")] } ]
    roles :=
      [ { name := "a-ns1-server", ns := "ns1"
          labels := getLabelsForClusterArgoCD crA_deleting
          rules := getServerSourceNamespacePolicyRules },
        { name := "a-ns2-server", ns := "ns2"
          labels := getLabelsForClusterArgoCD crA_deleting
          rules := getServerSourceNamespacePolicyRules },
        { name := "a-ns3-server", ns := "ns3"
          labels := getLabelsForClusterArgoCD crA_deleting
          rules := getServerSourceNamespacePolicyRules } ] }

/-- Instance `a` listing `ns1` in its apps source-namespace list (not deleting). -/
def crA_apps : ClusterArgoCD :=
  { name := "a", spec := { baseSpec with sourceNamespaces := ["ns1"] }
    finalizers := [argoCDDeletionFinalizer], deletionTimestamp := false }

/-- World for C6: `ns1` exists, nothing claimed or provisioned yet. -/
def worldC6 : World :=
  { emptyWorldFor crA_apps with nss := [{ name := "ns1", labels := [] }] }

/-- Instance `a` with the default feature set (for the resource pass). -/
def crA_plain : ClusterArgoCD :=
  { name := "a", spec := baseSpec
    finalizers := [argoCDDeletionFinalizer], deletionTimestamp := false }

/-- Faults for C7: reading the application-controller ClusterRole fails with
a non-NotFound error. -/
def faultsC7 : Faults :=
  { noFaults with getClusterRole := ["a-application-controller"] }

/-- Faults for C5: listing the labelled namespaces (the claim-release step)
fails. -/
def faultsListNamespaces : Faults := { noFaults with listNamespaces := true }

/-- Faults for C5: listing the labelled ClusterRoles (the cluster-scoped
deletion step) fails. -/
def faultsListClusterRoles : Faults := { noFaults with listClusterRoles := true }

/-- Faults for C5: the namespace Update releasing the claim on `ns1` fails
(the fault the claim-release loop swallows, sourcenamespace.go:264-266). -/
def faultsUpdateNs1 : Faults := { noFaults with updateNamespace := ["ns1"] }

/-- An instance named `b` whose apps source-namespace list is exactly
`[nsName]` (all other features off). -/
def crAppsOf (b nsName : String) : ClusterArgoCD :=
  { name := b, spec := { baseSpec with sourceNamespaces := [nsName] }
    finalizers := [], deletionTimestamp := false }

/-- An instance named `b` whose app-set source-namespace list is exactly
`[nsName]` and whose apps list is empty. -/
def crAppSetOf (b nsName : String) : ClusterArgoCD :=
  { name := b
    spec := { baseSpec with
      applicationSet := some { enabled := none, sourceNamespaces := [nsName] } }
    finalizers := [], deletionTimestamp := false }

/-- A world holding exactly one namespace. -/
def worldOneNs (cr : ClusterArgoCD) (nsName : String)
    (labels : List (String × String)) : World :=
  { emptyWorldFor cr with nss := [{ name := nsName, labels := labels }] }

/-- Is this event a source-namespace claim release (a namespace label write)? -/
def isClaimReleaseEv : Ev → Bool
  | .updateNamespace _ => true
  | _ => false

/-- Is this event the per-instance timer cancellation? -/
def isCancelTimersEv : Ev → Bool
  | .cancelTimers _ => true
  | _ => false

/-- The ordering consequence of the deletion order asserted by the spec
("first release every source-namespace claim …, third cancel every
background per-instance timer"): in the cascade trace, every claim-release
event precedes every timer-cancellation event. -/
def claimedCascadeOrderHolds (t : List Ev) : Prop :=
  ∀ (i j : Fin t.length),
    isClaimReleaseEv (t.get i) = true → isCancelTimersEv (t.get j) = true → (i : Nat) < j

/-! ## Lemmas on the association-list helpers -/

theorem lookupKey_append {α : Type} (s t : List (String × α)) (k : String) :
    lookupKey (s ++ t) k =
      match lookupKey s k with
      | some v => some v
      | none => lookupKey t k := by
  induction s with
  | nil => simp [lookupKey]
  | cons p rest ih =>
    obtain ⟨k', v'⟩ := p
    by_cases h : k' = k <;> simp [lookupKey, h, ih]

/-! ## Claim C10: `addKubernetesData` -/

/-- **C10.** Characterisation of the pre-comparison metadata merge
`addKubernetesData source live`: a key already present in the desired
(`source`) map keeps its desired value; a key matching one of the reserved
platform patterns (`*kubernetes.io*`, `*k8s.io*`, `*openshift.io*`) that is
absent from the desired map is copied from the live map; a key matching no
pattern is never copied. -/
theorem addKubernetesData_spec (live : List (String × String)) :
    ∀ (source : List (String × String)) (k : String),
      ((lookupKey source k).isSome →
        lookupKey (addKubernetesData source live) k = lookupKey source k)
      ∧ (matchesKubernetesPattern k = true → lookupKey source k = none →
        lookupKey (addKubernetesData source live) k = lookupKey live k)
      ∧ (matchesKubernetesPattern k = false →
        lookupKey (addKubernetesData source live) k = lookupKey source k) := by
  induction live with
  | nil =>
    intro source k
    refine ⟨fun _ => rfl, fun _ h => ?_, fun _ => rfl⟩
    simp [addKubernetesData, lookupKey, h]
  | cons p rest ih =>
    obtain ⟨key, v⟩ := p
    intro source k
    by_cases hcond : (matchesKubernetesPattern key && (lookupKey source key).isNone) = true
    · have hstep : addKubernetesData source ((key, v) :: rest)
          = addKubernetesData (source ++ [(key, v)]) rest := by
        simp [addKubernetesData, hcond]
      obtain ⟨hmk, hnone⟩ := Bool.and_eq_true_iff.mp hcond
      have hnone' : lookupKey source key = none := by
        cases h : lookupKey source key <;> simp [h] at hnone ⊢
      refine ⟨?_, ?_, ?_⟩
      · intro hsome
        have hk : k ≠ key := by
          intro h; subst h
          rw [hnone'] at hsome; simp at hsome
        have happ : lookupKey (source ++ [(key, v)]) k = lookupKey source k := by
          rw [lookupKey_append]
          cases h : lookupKey source k with
          | some w => simp
          | none => rw [h] at hsome; simp at hsome
        rw [hstep, (ih (source ++ [(key, v)]) k).1 (by rw [happ]; exact hsome), happ]
      · intro hm hkn
        by_cases hk : key = k
        · subst hk
          have happ : lookupKey (source ++ [(key, v)]) key = some v := by
            rw [lookupKey_append, hnone']
            simp [lookupKey]
          rw [hstep, (ih (source ++ [(key, v)]) key).1 (by rw [happ]; rfl), happ]
          simp [lookupKey]
        · have happ : lookupKey (source ++ [(key, v)]) k = none := by
            rw [lookupKey_append, hkn]
            simp [lookupKey, hk]
          rw [hstep, (ih (source ++ [(key, v)]) k).2.1 hm happ]
          simp [lookupKey, hk]
      · intro hm
        have hk : k ≠ key := by
          intro h; subst h; rw [hmk] at hm; exact absurd hm (by simp)
        have happ : lookupKey (source ++ [(key, v)]) k = lookupKey source k := by
          rw [lookupKey_append]
          cases h : lookupKey source k with
          | some w => simp
          | none => simp [lookupKey, Ne.symm hk]
        rw [hstep, (ih (source ++ [(key, v)]) k).2.2 hm, happ]
    · have hstep : addKubernetesData source ((key, v) :: rest)
          = addKubernetesData source rest := by
        simp only [addKubernetesData]
        rw [if_neg (by simpa using hcond)]
      refine ⟨?_, ?_, ?_⟩
      · intro hsome
        rw [hstep, (ih source k).1 hsome]
      · intro hm hkn
        have hk : key ≠ k := by
          intro h; subst h
          apply hcond
          simp [hm, hkn]
        rw [hstep, (ih source k).2.1 hm hkn]
        simp [lookupKey, hk]
      · intro hm
        rw [hstep, (ih source k).2.2 hm]

/-- Witness for C10: a reserved live key absent from the desired map is
copied; a reserved key present keeps the desired value; an unreserved live
key is not copied. -/
theorem addKubernetesData_spec_witness :
    lookupKey (addKubernetesData [("app.kubernetes.io/instance", "keep")]
        [("app.kubernetes.io/instance", "live"), ("topology.kubernetes.io/zone", "z1"),
          ("team", "payments")]) "app.kubernetes.io/instance"
      = some "keep"
    ∧ lookupKey (addKubernetesData [("app.kubernetes.io/instance", "keep")]
        [("app.kubernetes.io/instance", "live"), ("topology.kubernetes.io/zone", "z1"),
          ("team", "payments")]) "topology.kubernetes.io/zone"
      = some "z1"
    ∧ lookupKey (addKubernetesData [("app.kubernetes.io/instance", "keep")]
        [("app.kubernetes.io/instance", "live"), ("topology.kubernetes.io/zone", "z1"),
          ("team", "payments")]) "team"
      = none := by
  refine ⟨?_, ?_, ?_⟩
  · have h := (addKubernetesData_spec
      [("app.kubernetes.io/instance", "live"), ("topology.kubernetes.io/zone", "z1"),
        ("team", "payments")]
      [("app.kubernetes.io/instance", "keep")] "app.kubernetes.io/instance").1
    rw [h (by decide)]; decide
  · have h := (addKubernetesData_spec
      [("app.kubernetes.io/instance", "live"), ("topology.kubernetes.io/zone", "z1"),
        ("team", "payments")]
      [("app.kubernetes.io/instance", "keep")] "topology.kubernetes.io/zone").2.1
    rw [h (by decide) (by decide)]; decide
  · have h := (addKubernetesData_spec
      [("app.kubernetes.io/instance", "live"), ("topology.kubernetes.io/zone", "z1"),
        ("team", "payments")]
      [("app.kubernetes.io/instance", "keep")] "team").2.2
    rw [h (by decide)]; decide

/-! ## Claim C9: aggregation of the Redis Deployment diff -/

theorem joinComma_cons (x : String) (ys : List String) (h : ys ≠ []) :
    joinComma (x :: ys) = x ++ ", " ++ joinComma ys := by
  cases ys with
  | nil => exact absurd rfl h
  | cons y t => rfl

theorem diffStep_foldl (ps : List (Bool × String)) : ∀ (b : Bool) (e : String),
    ps.foldl (fun acc p => diffStep acc p.1 p.2) (b, e) =
      (b || ps.any (fun p => p.1),
        if (ps.filter (fun p => p.1)) = [] then e
        else (if b then e ++ ", " else e) ++
          joinComma ((ps.filter (fun p => p.1)).map (fun p => p.2))) := by
  induction ps with
  | nil => intro b e; simp
  | cons p rest ih =>
    intro b e
    obtain ⟨d, n⟩ := p
    cases d with
    | false => simpa [diffStep] using ih b e
    | true =>
      have hstep : diffStep (b, e) true n = (true, (if b then e ++ ", " else e) ++ n) := by
        simp [diffStep]
      have hgoal : List.foldl (fun acc p => diffStep acc p.1 p.2) (b, e) ((true, n) :: rest)
          = List.foldl (fun acc p => diffStep acc p.1 p.2) (diffStep (b, e) true n) rest := rfl
      rw [hgoal, hstep, ih]
      have hfil : List.filter (fun p => p.1) ((true, n) :: rest)
          = (true, n) :: List.filter (fun p => p.1) rest := by simp
      rw [hfil]
      by_cases h : List.filter (fun p => p.1) rest = []
      · simp [h, joinComma]
      · simp only [List.map_cons]
        rw [joinComma_cons n _ (by simpa using h)]
        simp [h, String.append_assoc]

theorem any_eq_filter_ne_nil (ps : List (Bool × String)) :
    ps.any (fun p => p.1) = true ↔ (ps.filter (fun p => p.1) ≠ []) := by
  induction ps with
  | nil => simp
  | cons p rest ih => by_cases h : p.1 <;> simp [h, ih]

/-- **C9.** The update decision of `ReconcileRedisDeployment` issues at most
one `Update` call: none when no compared operator-managed field changed, and
exactly one — whose explanation is the comma-joined aggregation of the
changed fields' names, in comparison order — when at least one changed. -/
theorem redisDeployment_single_aggregated_update (existing desired : RedisDeployFields) :
    (redisDeploymentUpdateCalls existing desired).length ≤ 1
    ∧ redisDeploymentUpdateCalls existing desired =
      (if ((redisDeploymentFieldDiffs existing desired).filter (fun p => p.1)) = [] then []
       else ["Update: " ++ joinComma
          (((redisDeploymentFieldDiffs existing desired).filter (fun p => p.1)).map
            (fun p => p.2))]) := by
  have hfold := diffStep_foldl (redisDeploymentFieldDiffs existing desired) false ""
  have hcalls : redisDeploymentUpdateCalls existing desired =
      (if ((redisDeploymentFieldDiffs existing desired).filter (fun p => p.1)) = [] then []
       else ["Update: " ++ joinComma
          (((redisDeploymentFieldDiffs existing desired).filter (fun p => p.1)).map
            (fun p => p.2))]) := by
    unfold redisDeploymentUpdateCalls redisDeploymentChanged
    rw [hfold]
    by_cases h : ((redisDeploymentFieldDiffs existing desired).filter (fun p => p.1)) = []
    · have hany : (redisDeploymentFieldDiffs existing desired).any (fun p => p.1) = false := by
        rw [← Bool.not_eq_true]
        intro hc
        exact (any_eq_filter_ne_nil _ |>.mp hc) h
      simp [h, hany]
    · have hany : (redisDeploymentFieldDiffs existing desired).any (fun p => p.1) = true :=
        (any_eq_filter_ne_nil _).mpr h
      simp [h, hany]
  refine ⟨?_, hcalls⟩
  rw [hcalls]
  by_cases h : ((redisDeploymentFieldDiffs existing desired).filter (fun p => p.1)) = [] <;>
    simp [h]

/-! ## Claim C1: no skip for namespaces claimed by a different instance -/

/-- **C1, counterexample.** `ns1` already carries the apps claim of instance
`a`; instance `b` lists `ns1` in its apps source-namespace list.  The claim
says the reconcile skips: no Role/RoleBinding created in `ns1` and the
existing managed-by label value left unchanged.  The code instead overwrites
the label with `b` and creates the server Role. -/
theorem claimSkip_counterexample :
    (reconcileSourceNamespaces noFaults crB_apps worldC1).trace
      = [Ev.updateNamespace "ns1", Ev.createRole "ns1" "b-ns1-server"]
    ∧ (reconcileSourceNamespaces noFaults crB_apps worldC1).world.nss
      = [{ name := "ns1", labels := [(clusterArgoCDManagedByLabelKey, "b")] }]
    ∧ (reconcileSourceNamespaces noFaults crB_apps worldC1).err = none := by
  refine ⟨rfl, rfl, rfl⟩

/-- **C1, amended.** For any two distinct instance names `a ≠ b`: when `ns`
carries the apps claim of `a` and instance `b` reconciles with `ns` in its
apps source-namespace list, the reconcile does not skip — it succeeds,
overwrites the managed-by label value with `b` (last writer wins) and
creates the server Role in `ns`. -/
theorem claimOverwrite_amended (a b nsName : String) (hab : a ≠ b) :
    (reconcileSourceNamespaces noFaults (crAppsOf b nsName)
        (worldOneNs (crAppsOf b nsName) nsName [(clusterArgoCDManagedByLabelKey, a)])).err
      = none
    ∧ (reconcileSourceNamespaces noFaults (crAppsOf b nsName)
        (worldOneNs (crAppsOf b nsName) nsName [(clusterArgoCDManagedByLabelKey, a)])).world.nss
      = [{ name := nsName, labels := [(clusterArgoCDManagedByLabelKey, b)] }]
    ∧ (reconcileSourceNamespaces noFaults (crAppsOf b nsName)
        (worldOneNs (crAppsOf b nsName) nsName [(clusterArgoCDManagedByLabelKey, a)])).trace
      = [Ev.updateNamespace nsName,
         Ev.createRole nsName (b ++ "-" ++ nsName ++ "-" ++ argoCDServerComponent)] := by
  have hab' : ¬ (a = b) := hab
  refine ⟨?_, ?_, ?_⟩ <;>
    simp [reconcileSourceNamespaces, reconcileApplicationSourceNamespaces, crAppsOf,
      worldOneNs, baseSpec, emptyWorldFor, reconcileAppSourceNamespacesLoop,
      getNamespaceE, noFaults, getL, lookupKey, setKey, updateNamespaceOut,
      createRoleInSourceNamespace, generateResourceName,
      reconcileApplicationSetSourceNamespaces, reconcileNotificationsSourceNamespaces,
      cleanupUnmanagedSourceNamespaces, listNamespacesWithLabel,
      currentSourceNamespacesOf, cleanupUnmanagedLoop, andThen, wrapIfErr, okOut,
      errOut, getClusterArgoCDManagedByLabel, getLabelsForClusterArgoCD,
      getServerSourceNamespacePolicyRules, argoCDServerComponent, hab']

/-! ## Claim C2: no subset-invariant check before app-set claims -/

/-- **C2, counterexample.** Instance `b` has an empty apps list and `ns1` in
its app-set list; `ns1` carries no apps claim by `b` (its label map is
empty).  The claim says the namespace is skipped without labelling; the code
labels it with the app-set claim anyway. -/
theorem subsetInvariant_counterexample :
    (reconcileSourceNamespaces noFaults crB_appset worldC2).trace
      = [Ev.updateNamespace "ns1"]
    ∧ (reconcileSourceNamespaces noFaults crB_appset worldC2).world.nss
      = [{ name := "ns1", labels := [(applicationSetManagedByLabelKey, "b")] }]
    ∧ worldC2.nss.map (fun n => lookupKey n.labels clusterArgoCDManagedByLabelKey)
      = [none]
    ∧ (reconcileSourceNamespaces noFaults crB_appset worldC2).err = none := by
  refine ⟨rfl, rfl, rfl, rfl⟩

/-- **C2, amended.** No subset check is performed.  For any instance name
`b ≠ ""`: when `ns` exists with no labels at all — in particular no apps
claim by `b` — and `b` lists `ns` in its app-set source-namespace list, the
reconcile does not skip the namespace: it succeeds and labels `ns` with the
app-set claim `{app-set key: b}`. -/
theorem appSetClaimWithoutAppsClaim_amended (b nsName : String) (hb : b ≠ "") :
    (reconcileSourceNamespaces noFaults (crAppSetOf b nsName)
        (worldOneNs (crAppSetOf b nsName) nsName [])).err = none
    ∧ (reconcileSourceNamespaces noFaults (crAppSetOf b nsName)
        (worldOneNs (crAppSetOf b nsName) nsName [])).world.nss
      = [{ name := nsName, labels := [(applicationSetManagedByLabelKey, b)] }]
    ∧ (reconcileSourceNamespaces noFaults (crAppSetOf b nsName)
        (worldOneNs (crAppSetOf b nsName) nsName [])).trace
      = [Ev.updateNamespace nsName] := by
  have hb' : ¬ ("" = b) := fun h => hb h.symm
  have hkeys : ¬ (applicationSetManagedByLabelKey = clusterArgoCDManagedByLabelKey) := by
    decide
  refine ⟨?_, ?_, ?_⟩ <;>
    simp [reconcileSourceNamespaces, reconcileApplicationSourceNamespaces, crAppSetOf,
      worldOneNs, baseSpec, emptyWorldFor, reconcileAppSetSourceNamespacesLoop,
      getNamespaceE, noFaults, getL, lookupKey, setKey, updateNamespaceOut,
      reconcileApplicationSetSourceNamespaces, reconcileNotificationsSourceNamespaces,
      cleanupUnmanagedSourceNamespaces, listNamespacesWithLabel,
      currentSourceNamespacesOf, cleanupUnmanagedLoop, andThen, wrapIfErr, okOut,
      errOut, getClusterArgoCDManagedByLabel, hb', hkeys]

/-! ## Claim C3: order of the deletion cascade -/

/-- **C3, counterexample.** At a world with one claimed namespace, one
labelled ClusterRole and one instance timer, the deletion branch emits the
trace timers-first: the timer cancellation (index 0) precedes the
claim release (index 2), so the spec's order — claims released first, timers
cancelled third — is violated. -/
theorem cascadeOrder_counterexample :
    (internalReconcileDeletion noFaults worldC3).trace
      = [Ev.cancelTimers "a", Ev.deleteClusterRole "a-server",
         Ev.updateNamespace "ns1", Ev.removeFinalizer]
    ∧ ¬ claimedCascadeOrderHolds (internalReconcileDeletion noFaults worldC3).trace := by
  constructor
  · rfl
  · intro h
    have h02 := h ⟨2, by decide⟩ ⟨0, by decide⟩
    revert h02
    decide

/-! ### Supporting lemmas on the cascade steps -/

theorem deleteClusterRolesLoop_clean (f : Faults) (hd : f.deleteClusterRole = [])
    (cs : List ClusterRoleObj) :
    ∀ w : World,
      (deleteClusterRolesLoop f cs w).err = none
      ∧ (deleteClusterRolesLoop f cs w).trace
        = cs.map (fun c => Ev.deleteClusterRole c.name)
      ∧ (deleteClusterRolesLoop f cs w).world.cr = w.cr
      ∧ (deleteClusterRolesLoop f cs w).world.nss = w.nss
      ∧ (deleteClusterRolesLoop f cs w).world.clusterRoleBindings
        = w.clusterRoleBindings := by
  induction cs with
  | nil => intro w; simp [deleteClusterRolesLoop, okOut]
  | cons c rest ih =>
    intro w
    have h := ih { w with clusterRoles := w.clusterRoles.filter (fun x => !(x.name == c.name)) }
    simp [deleteClusterRolesLoop, hd, andThen, h.1, h.2.1, h.2.2.1, h.2.2.2.1, h.2.2.2.2]

theorem deleteClusterRoleBindingsLoop_clean (f : Faults)
    (hd : f.deleteClusterRoleBinding = []) (cs : List ClusterRoleBindingObj) :
    ∀ w : World,
      (deleteClusterRoleBindingsLoop f cs w).err = none
      ∧ (deleteClusterRoleBindingsLoop f cs w).trace
        = cs.map (fun c => Ev.deleteClusterRoleBinding c.name)
      ∧ (deleteClusterRoleBindingsLoop f cs w).world.cr = w.cr
      ∧ (deleteClusterRoleBindingsLoop f cs w).world.nss = w.nss := by
  induction cs with
  | nil => intro w; simp [deleteClusterRoleBindingsLoop, okOut]
  | cons c rest ih =>
    intro w
    have h := ih
      { w with clusterRoleBindings := w.clusterRoleBindings.filter (fun x => !(x.name == c.name)) }
    simp [deleteClusterRoleBindingsLoop, hd, andThen, h.1, h.2.1, h.2.2.1, h.2.2.2]

theorem deleteClusterResources_clean (f : Faults) (hlr : f.listClusterRoles = false)
    (hlb : f.listClusterRoleBindings = false) (hdr : f.deleteClusterRole = [])
    (hdb : f.deleteClusterRoleBinding = []) (cr : ClusterArgoCD) (w : World) :
    (deleteClusterResources f cr w).err = none
    ∧ (deleteClusterResources f cr w).trace
      = ((w.clusterRoles.filter
            (fun c => lookupKey c.labels argoCDKeyName == some cr.name)).map
          (fun c => Ev.deleteClusterRole c.name))
        ++ ((w.clusterRoleBindings.filter
            (fun c => lookupKey c.labels argoCDKeyName == some cr.name)).map
          (fun c => Ev.deleteClusterRoleBinding c.name))
    ∧ (deleteClusterResources f cr w).world.cr = w.cr
    ∧ (deleteClusterResources f cr w).world.nss = w.nss := by
  obtain ⟨hAerr, hAtrace, hAcr, hAnss, hAcrb⟩ := deleteClusterRolesLoop_clean f hdr
    (w.clusterRoles.filter (fun c => lookupKey c.labels argoCDKeyName == some cr.name)) w
  obtain ⟨hBerr, hBtrace, hBcr, hBnss⟩ := deleteClusterRoleBindingsLoop_clean f hdb
    ((deleteClusterRolesLoop f
        (w.clusterRoles.filter (fun c => lookupKey c.labels argoCDKeyName == some cr.name))
        w).world.clusterRoleBindings.filter
      (fun c => lookupKey c.labels argoCDKeyName == some cr.name))
    (deleteClusterRolesLoop f
      (w.clusterRoles.filter (fun c => lookupKey c.labels argoCDKeyName == some cr.name)) w).world
  have hunf : deleteClusterResources f cr w
      = andThen
          (deleteClusterRolesLoop f
            (w.clusterRoles.filter (fun c => lookupKey c.labels argoCDKeyName == some cr.name)) w)
          (fun w1 =>
            deleteClusterRoleBindingsLoop f
              (w1.clusterRoleBindings.filter
                (fun c => lookupKey c.labels argoCDKeyName == some cr.name))
              w1) := by
    unfold deleteClusterResources
    rw [if_neg (by simp [hlr])]
    congr 1
    funext w1
    rw [if_neg (by simp [hlb])]
  rw [hunf]
  unfold andThen
  rw [hAerr]
  refine ⟨hBerr, ?_, ?_, ?_⟩
  · show (deleteClusterRolesLoop f _ w).trace ++ _ = _
    rw [hAtrace, hBtrace, hAcrb]
  · show (deleteClusterRoleBindingsLoop f _ _).world.cr = w.cr
    rw [hBcr, hAcr]
  · show (deleteClusterRoleBindingsLoop f _ _).world.nss = w.nss
    rw [hBnss, hAnss]

theorem cleanupUnmanagedLoop_clean (f : Faults) (hup : f.updateNamespace = [])
    (labelKey : String) (current : List String) (ns : List NamespaceObj) :
    ∀ w : World,
      (cleanupUnmanagedLoop f labelKey current ns w).err = none
      ∧ (cleanupUnmanagedLoop f labelKey current ns w).trace
        = (ns.filter (fun n => !(current.contains n.name))).map
            (fun n => Ev.updateNamespace n.name)
      ∧ (cleanupUnmanagedLoop f labelKey current ns w).world.cr = w.cr
      ∧ (cleanupUnmanagedLoop f labelKey current ns w).world.roles = w.roles
      ∧ (cleanupUnmanagedLoop f labelKey current ns w).world.clusterRoles
        = w.clusterRoles := by
  induction ns with
  | nil => intro w; simp [cleanupUnmanagedLoop, okOut]
  | cons n rest ih =>
    intro w
    by_cases hc : n.name ∈ current
    · have h := ih w
      simp [cleanupUnmanagedLoop, hc, h.1, h.2.1, h.2.2.1, h.2.2.2.1, h.2.2.2.2]
    · have h := ih
        { w with nss := w.nss.map (fun m =>
            if m.name == n.name then { n with labels := removeKey n.labels labelKey } else m) }
      simp only [beq_iff_eq] at h
      simp [cleanupUnmanagedLoop, hc, updateNamespaceOut, hup, h.1, h.2.1, h.2.2.1,
        h.2.2.2.1, h.2.2.2.2]

theorem cleanupAllSourceNamespaces_clean (f : Faults) (hln : f.listNamespaces = false)
    (hup : f.updateNamespace = []) (cr : ClusterArgoCD) (w : World) :
    (cleanupAllSourceNamespaces f cr w).err = none
    ∧ (cleanupAllSourceNamespaces f cr w).trace
      = (listNamespacesWithLabel w clusterArgoCDManagedByLabelKey cr.name).map
          (fun n => Ev.updateNamespace n.name)
    ∧ (cleanupAllSourceNamespaces f cr w).world.cr = w.cr
    ∧ (cleanupAllSourceNamespaces f cr w).world.roles = w.roles := by
  have h := cleanupUnmanagedLoop_clean f hup clusterArgoCDManagedByLabelKey []
    (listNamespacesWithLabel w clusterArgoCDManagedByLabelKey cr.name) w
  simp only [cleanupAllSourceNamespaces, cleanupUnmanagedSourceNamespaces, hln,
    Bool.false_eq_true, if_false, wrapIfErr, currentSourceNamespacesOf,
    getClusterArgoCDManagedByLabel] at h ⊢
  simp only [List.contains_nil, Bool.not_false, List.filter_true] at h
  simp [h.1, h.2.1, h.2.2.1, h.2.2.2]

/-- `cleanupClusterInstanceTokenTimers` changes only the timer map. -/
theorem cleanupTimers_world (name : String) (w : World) :
    (cleanupClusterInstanceTokenTimers name w).1
      = { w with timers := (w.timers.filter (fun k =>
          !(k.length > name.length && startsWithL k.data name.data))) }
    ∧ (cleanupClusterInstanceTokenTimers name w).2 = [Ev.cancelTimers name] := by
  exact ⟨rfl, rfl⟩

/-! ### The amended cascade-order theorem -/

/-- **C3, amended.** In the fault-free deletion cascade with the finalizer
present, the steps run in this strict order: (1) cancel the instance's
background timers (this even precedes the finalizer check), (2) delete the
labelled cluster-scoped ClusterRoles then ClusterRoleBindings, (3) release
the source-namespace claims by removing the apps managed-by labels, and only
(4) remove the finalizer; the cascade succeeds. -/
theorem cascadeOrder_amended (w : World)
    (hfin : isDeletionFinalizerPresent w.cr = true) :
    (internalReconcileDeletion noFaults w).err = none
    ∧ (internalReconcileDeletion noFaults w).trace
      = [Ev.cancelTimers w.cr.name]
        ++ ((w.clusterRoles.filter
              (fun c => lookupKey c.labels argoCDKeyName == some w.cr.name)).map
            (fun c => Ev.deleteClusterRole c.name))
        ++ ((w.clusterRoleBindings.filter
              (fun c => lookupKey c.labels argoCDKeyName == some w.cr.name)).map
            (fun c => Ev.deleteClusterRoleBinding c.name))
        ++ ((listNamespacesWithLabel w clusterArgoCDManagedByLabelKey w.cr.name).map
            (fun n => Ev.updateNamespace n.name))
        ++ [Ev.removeFinalizer] := by
  have hw1 := cleanupTimers_world w.cr.name w
  set w1 := (cleanupClusterInstanceTokenTimers w.cr.name w).1 with hw1def
  have hcr1 : w1.cr = w.cr := by rw [hw1.1]
  have hnss1 : w1.nss = w.nss := by rw [hw1.1]
  have hcrs1 : w1.clusterRoles = w.clusterRoles := by rw [hw1.1]
  have hcrbs1 : w1.clusterRoleBindings = w.clusterRoleBindings := by rw [hw1.1]
  have hdel := deleteClusterResources_clean noFaults rfl rfl rfl rfl w.cr w1
  have hclean := cleanupAllSourceNamespaces_clean noFaults rfl rfl
    (deleteClusterResources noFaults w.cr w1).world.cr
    (deleteClusterResources noFaults w.cr w1).world
  have hlist : listNamespacesWithLabel (deleteClusterResources noFaults w.cr w1).world
      clusterArgoCDManagedByLabelKey (deleteClusterResources noFaults w.cr w1).world.cr.name
      = listNamespacesWithLabel w clusterArgoCDManagedByLabelKey w.cr.name := by
    unfold listNamespacesWithLabel
    rw [hdel.2.2.2, hdel.2.2.1, hnss1, hcr1]
  constructor
  · simp only [internalReconcileDeletion]
    rw [← hw1def]
    simp [hcr1, hfin, andThen, wrapIfErr, removeDeletionFinalizer, hdel.1, hclean.1]
  · simp only [internalReconcileDeletion]
    rw [← hw1def]
    simp [hcr1, hfin, andThen, wrapIfErr, removeDeletionFinalizer, hdel.1, hclean.1,
      hdel.2.1, hclean.2.1, hlist, hw1.2, hcrs1, hcrbs1, List.append_assoc]

/-- Witness for the amended C3 theorem at the concrete world of the
counterexample. -/
theorem cascadeOrder_amended_witness :
    isDeletionFinalizerPresent worldC3.cr = true
    ∧ ((internalReconcileDeletion noFaults worldC3).err = none
      ∧ (internalReconcileDeletion noFaults worldC3).trace
        = [Ev.cancelTimers worldC3.cr.name]
          ++ ((worldC3.clusterRoles.filter
                (fun c => lookupKey c.labels argoCDKeyName == some worldC3.cr.name)).map
              (fun c => Ev.deleteClusterRole c.name))
          ++ ((worldC3.clusterRoleBindings.filter
                (fun c => lookupKey c.labels argoCDKeyName == some worldC3.cr.name)).map
              (fun c => Ev.deleteClusterRoleBinding c.name))
          ++ ((listNamespacesWithLabel worldC3 clusterArgoCDManagedByLabelKey
                worldC3.cr.name).map
              (fun n => Ev.updateNamespace n.name))
          ++ [Ev.removeFinalizer]) :=
  ⟨by decide, cascadeOrder_amended worldC3 (by decide)⟩

/-! ### Error propagation and idempotence of the cascade (claim C5) -/

theorem deleteClusterRolesLoop_cr (f : Faults) (cs : List ClusterRoleObj) :
    ∀ w : World, (deleteClusterRolesLoop f cs w).world.cr = w.cr := by
  induction cs with
  | nil => intro w; rfl
  | cons c rest ih =>
    intro w
    by_cases hc : c.name ∈ f.deleteClusterRole
    · simp [deleteClusterRolesLoop, hc, errOut]
    · simp [deleteClusterRolesLoop, hc, andThen, ih]

theorem deleteClusterRoleBindingsLoop_cr (f : Faults) (cs : List ClusterRoleBindingObj) :
    ∀ w : World, (deleteClusterRoleBindingsLoop f cs w).world.cr = w.cr := by
  induction cs with
  | nil => intro w; rfl
  | cons c rest ih =>
    intro w
    by_cases hc : c.name ∈ f.deleteClusterRoleBinding
    · simp [deleteClusterRoleBindingsLoop, hc, errOut]
    · simp [deleteClusterRoleBindingsLoop, hc, andThen, ih]

theorem deleteClusterResources_cr (f : Faults) (cr : ClusterArgoCD) (w : World) :
    (deleteClusterResources f cr w).world.cr = w.cr := by
  by_cases h1 : f.listClusterRoles = true
  · simp [deleteClusterResources, h1, errOut]
  · simp only [deleteClusterResources, h1, Bool.false_eq_true, if_false, andThen]
    cases hA : (deleteClusterRolesLoop f
        (w.clusterRoles.filter (fun c => lookupKey c.labels argoCDKeyName == some cr.name))
        w).err with
    | some e =>
      simpa using deleteClusterRolesLoop_cr f _ w
    | none =>
      by_cases h2 : f.listClusterRoleBindings = true
      · simp [h2, errOut, deleteClusterRolesLoop_cr f _ w]
      · simp [h2, deleteClusterRoleBindingsLoop_cr, deleteClusterRolesLoop_cr f _ w]

theorem cleanupUnmanagedLoop_cr (f : Faults) (labelKey : String) (current : List String)
    (ns : List NamespaceObj) :
    ∀ w : World, (cleanupUnmanagedLoop f labelKey current ns w).world.cr = w.cr := by
  induction ns with
  | nil => intro w; rfl
  | cons n rest ih =>
    intro w
    by_cases hc : n.name ∈ current
    · simp [cleanupUnmanagedLoop, hc, ih]
    · by_cases hu : n.name ∈ f.updateNamespace
      · simp [cleanupUnmanagedLoop, hc, updateNamespaceOut, hu, errOut, ih]
      · simp [cleanupUnmanagedLoop, hc, updateNamespaceOut, hu, ih]

theorem wrapIfErr_world (msg : String) (o : Outcome) : (wrapIfErr msg o).world = o.world := by
  cases h : o.err <;> simp [wrapIfErr, h]

theorem cleanupUnmanagedSourceNamespaces_cr (f : Faults) (cr : ClusterArgoCD) (w : World) :
    (cleanupUnmanagedSourceNamespaces f cr w).world.cr = w.cr := by
  by_cases h : f.listNamespaces = true
  · simp [cleanupUnmanagedSourceNamespaces, h, errOut]
  · simp [cleanupUnmanagedSourceNamespaces, h, cleanupUnmanagedLoop_cr]

theorem cleanupAllSourceNamespaces_cr (f : Faults) (cr : ClusterArgoCD) (w : World) :
    (cleanupAllSourceNamespaces f cr w).world.cr = w.cr := by
  unfold cleanupAllSourceNamespaces
  rw [wrapIfErr_world]
  exact cleanupUnmanagedSourceNamespaces_cr f _ w

/-- With a fault-free store the deletion branch always succeeds. -/
theorem internalReconcileDeletion_noFaults_ok (w : World) :
    (internalReconcileDeletion noFaults w).err = none := by
  have hw1 := cleanupTimers_world w.cr.name w
  set w1 := (cleanupClusterInstanceTokenTimers w.cr.name w).1 with hw1def
  have hcr1 : w1.cr = w.cr := by rw [hw1.1]
  have hdel := deleteClusterResources_clean noFaults rfl rfl rfl rfl w.cr w1
  have hclean := cleanupAllSourceNamespaces_clean noFaults rfl rfl
    (deleteClusterResources noFaults w.cr w1).world.cr
    (deleteClusterResources noFaults w.cr w1).world
  by_cases hfin : isDeletionFinalizerPresent w.cr = true
  · simp only [internalReconcileDeletion]
    rw [← hw1def]
    simp [hcr1, hfin, andThen, wrapIfErr, removeDeletionFinalizer, hdel.1, hclean.1]
  · simp only [internalReconcileDeletion]
    rw [← hw1def]
    simp [hcr1, hfin]

/-- The claim-release loop never fails: an Update error is logged and
swallowed (sourcenamespace.go:264-266), whatever the injected update faults. -/
theorem cleanupUnmanagedLoop_noerr (f : Faults) (labelKey : String)
    (current : List String) (ns : List NamespaceObj) :
    ∀ w : World, (cleanupUnmanagedLoop f labelKey current ns w).err = none := by
  induction ns with
  | nil => intro w; rfl
  | cons n rest ih =>
    intro w
    by_cases hc : n.name ∈ current
    · simp [cleanupUnmanagedLoop, hc, ih]
    · by_cases hu : n.name ∈ f.updateNamespace
      · simp [cleanupUnmanagedLoop, hc, updateNamespaceOut, hu, errOut, ih]
      · simp [cleanupUnmanagedLoop, hc, updateNamespaceOut, hu, ih]

/-- As long as the namespace List succeeds, the claim-release step of the
cascade succeeds, whatever the injected update faults. -/
theorem cleanupAllSourceNamespaces_noerr (f : Faults) (hln : f.listNamespaces = false)
    (cr : ClusterArgoCD) (w : World) :
    (cleanupAllSourceNamespaces f cr w).err = none := by
  simp [cleanupAllSourceNamespaces, cleanupUnmanagedSourceNamespaces, hln, wrapIfErr,
    cleanupUnmanagedLoop_noerr]

/-- With no list or cluster-scoped delete faults, the deletion cascade
succeeds and removes the finalizer even when namespace Updates fail: the
claim-release loop swallows the write error. -/
theorem internalReconcileDeletion_swallows_updates (f : Faults)
    (hlr : f.listClusterRoles = false) (hlb : f.listClusterRoleBindings = false)
    (hdr : f.deleteClusterRole = []) (hdb : f.deleteClusterRoleBinding = [])
    (hln : f.listNamespaces = false) (w : World)
    (hfin : isDeletionFinalizerPresent w.cr = true) :
    (internalReconcileDeletion f w).err = none
    ∧ (internalReconcileDeletion f w).world.cr.finalizers
      = w.cr.finalizers.filter (fun x => !(x == argoCDDeletionFinalizer)) := by
  have hw1 := cleanupTimers_world w.cr.name w
  set w1 := (cleanupClusterInstanceTokenTimers w.cr.name w).1 with hw1def
  have hcr1 : w1.cr = w.cr := by rw [hw1.1]
  have hdel := deleteClusterResources_clean f hlr hlb hdr hdb w.cr w1
  constructor
  · simp only [internalReconcileDeletion]
    rw [← hw1def]
    simp [hcr1, hfin, andThen, wrapIfErr, removeDeletionFinalizer, hdel.1, hln,
      cleanupAllSourceNamespaces_noerr]
  · simp only [internalReconcileDeletion]
    rw [← hw1def]
    simp [hcr1, hfin, andThen, wrapIfErr, removeDeletionFinalizer, hdel.1, hln,
      cleanupAllSourceNamespaces_noerr, cleanupAllSourceNamespaces_cr,
      deleteClusterResources_cr]

/-- **C5 (counterexample).** The claim says any failure in cascade steps 1-3
aborts with an error and keeps the finalizer.  But when the namespace Update
releasing the claim on `ns1` fails, the claim-release loop swallows the error
(sourcenamespace.go:264-266): the cascade returns success, the finalizer is
removed, and the stale managed-by label is left on `ns1`. -/
theorem cascadeSwallow_counterexample :
    (internalReconcileDeletion faultsUpdateNs1 worldC3).err = none
    ∧ (internalReconcileDeletion faultsUpdateNs1 worldC3).world.cr.finalizers = []
    ∧ (internalReconcileDeletion faultsUpdateNs1 worldC3).world.nss
      = [{ name := "ns1", labels := [(clusterArgoCDManagedByLabelKey, "a")] }] := by
  refine ⟨rfl, rfl, rfl⟩

/-- **C5 (amended).** Error handling and idempotence of the deletion cascade
as implemented: (1) whenever the cascade returns an error the instance's
finalizer list is untouched; (2) a failure listing the labelled cluster-scoped
objects aborts the cascade with an error; (3) a failure listing the claimed
namespaces aborts the cascade with an error; (4) but a namespace-update
failure while releasing a claim is logged and swallowed: with only update
faults the cascade still succeeds and removes the finalizer (the stale label
is left behind); (5) on a fault-free store, running the cascade on an
instance whose labelled cluster objects, namespace claims and timers are
already absent succeeds, and running it again on the resulting world succeeds
again (already-absent objects and already-cancelled timers are treated as
success). -/
theorem cascadeErrorHandling_amended :
    (∀ (f : Faults) (w : World),
        (internalReconcileDeletion f w).err.isSome = true →
        (internalReconcileDeletion f w).world.cr.finalizers = w.cr.finalizers)
    ∧ (∀ w : World, isDeletionFinalizerPresent w.cr = true →
        (internalReconcileDeletion faultsListClusterRoles w).err.isSome = true)
    ∧ (∀ w : World, isDeletionFinalizerPresent w.cr = true →
        (internalReconcileDeletion faultsListNamespaces w).err.isSome = true)
    ∧ (∀ (f : Faults) (w : World),
        f.listClusterRoles = false → f.listClusterRoleBindings = false →
        f.deleteClusterRole = [] → f.deleteClusterRoleBinding = [] →
        f.listNamespaces = false →
        isDeletionFinalizerPresent w.cr = true →
        (internalReconcileDeletion f w).err = none
        ∧ (internalReconcileDeletion f w).world.cr.finalizers
          = w.cr.finalizers.filter (fun x => !(x == argoCDDeletionFinalizer)))
    ∧ (∀ w : World,
        w.clusterRoles.filter
            (fun c => lookupKey c.labels argoCDKeyName == some w.cr.name) = [] →
        w.clusterRoleBindings.filter
            (fun c => lookupKey c.labels argoCDKeyName == some w.cr.name) = [] →
        listNamespacesWithLabel w clusterArgoCDManagedByLabelKey w.cr.name = [] →
        w.timers = [] →
        (internalReconcileDeletion noFaults w).err = none
        ∧ (internalReconcileDeletion noFaults
            (internalReconcileDeletion noFaults w).world).err = none) := by
  refine ⟨?_, ?_, ?_, ?_, ?_⟩
  · intro f w
    have hw1 := cleanupTimers_world w.cr.name w
    set w1 := (cleanupClusterInstanceTokenTimers w.cr.name w).1 with hw1def
    have hcr1 : w1.cr = w.cr := by rw [hw1.1]
    simp only [internalReconcileDeletion]
    rw [← hw1def]
    by_cases hfin : isDeletionFinalizerPresent w.cr = true
    · simp only [hcr1, hfin, if_true]
      cases hA : (deleteClusterResources f w.cr w1).err with
      | some e =>
        intro _
        simp only [andThen, wrapIfErr, hA]
        simp [deleteClusterResources_cr, hcr1]
      | none =>
        cases hB : (cleanupAllSourceNamespaces f
            (deleteClusterResources f w.cr w1).world.cr
            (deleteClusterResources f w.cr w1).world).err with
        | some e =>
          intro _
          simp only [andThen, wrapIfErr, hA]
          simp only [hB]
          simp [cleanupAllSourceNamespaces_cr, deleteClusterResources_cr, hcr1]
        | none =>
          simp [andThen, wrapIfErr, hA, hB, removeDeletionFinalizer]
    · simp [hcr1, hfin]
  · intro w hfin
    have hw1 := cleanupTimers_world w.cr.name w
    set w1 := (cleanupClusterInstanceTokenTimers w.cr.name w).1 with hw1def
    have hcr1 : w1.cr = w.cr := by rw [hw1.1]
    simp only [internalReconcileDeletion]
    rw [← hw1def]
    simp [hcr1, hfin, andThen, wrapIfErr, deleteClusterResources, faultsListClusterRoles,
      noFaults, errOut]
  · intro w hfin
    have hw1 := cleanupTimers_world w.cr.name w
    set w1 := (cleanupClusterInstanceTokenTimers w.cr.name w).1 with hw1def
    have hcr1 : w1.cr = w.cr := by rw [hw1.1]
    have hdel := deleteClusterResources_clean faultsListNamespaces rfl rfl rfl rfl w.cr w1
    have hB : ∀ (cr2 : ClusterArgoCD) (w2 : World),
        (cleanupAllSourceNamespaces faultsListNamespaces cr2 w2).err
          = some "failed to cleanup source namespaces: failed to list managed namespaces" := by
      intro cr2 w2
      simp [cleanupAllSourceNamespaces, cleanupUnmanagedSourceNamespaces, wrapIfErr,
        errOut, faultsListNamespaces, noFaults]
    simp only [internalReconcileDeletion]
    rw [← hw1def]
    simp [hcr1, hfin, andThen, wrapIfErr, hdel.1, hB]
  · intro f w hlr hlb hdr hdb hln hfin
    exact internalReconcileDeletion_swallows_updates f hlr hlb hdr hdb hln w hfin
  · intro w _ _ _ _
    exact ⟨internalReconcileDeletion_noFaults_ok w,
      internalReconcileDeletion_noFaults_ok _⟩

/-- Witness for C5 at concrete inputs: a list fault in the cluster-scoped
deletion step and in the claim-release step each abort the cascade with the
finalizer retained; a swallowed namespace-update fault lets the cascade
succeed and remove the finalizer; and the cascade is idempotent on an
already-clean world. -/
theorem cascadeErrorHandling_amended_witness :
    ((internalReconcileDeletion faultsListClusterRoles worldC3).err.isSome = true
      ∧ (internalReconcileDeletion faultsListClusterRoles worldC3).world.cr.finalizers
        = worldC3.cr.finalizers)
    ∧ isDeletionFinalizerPresent worldC3.cr = true
    ∧ (internalReconcileDeletion faultsListNamespaces worldC3).err.isSome = true
    ∧ ((internalReconcileDeletion faultsUpdateNs1 worldC3).err = none
      ∧ (internalReconcileDeletion faultsUpdateNs1 worldC3).world.cr.finalizers
        = worldC3.cr.finalizers.filter (fun x => !(x == argoCDDeletionFinalizer)))
    ∧ ((internalReconcileDeletion noFaults (emptyWorldFor crA_deleting)).err = none
      ∧ (internalReconcileDeletion noFaults
          (internalReconcileDeletion noFaults (emptyWorldFor crA_deleting)).world).err
        = none) :=
  ⟨⟨cascadeErrorHandling_amended.2.1 worldC3 (by decide),
    cascadeErrorHandling_amended.1 faultsListClusterRoles worldC3
      (cascadeErrorHandling_amended.2.1 worldC3 (by decide))⟩,
   by decide,
   cascadeErrorHandling_amended.2.2.1 worldC3 (by decide),
   cascadeErrorHandling_amended.2.2.2.1 faultsUpdateNs1 worldC3 rfl rfl rfl rfl rfl
     (by decide),
   cascadeErrorHandling_amended.2.2.2.2 (emptyWorldFor crA_deleting) (by decide)
     (by decide) (by decide) (by decide)⟩

/-! ## Claim C4: cascade leaves the provisioned Roles in place -/

/-- **C4.** Instance `a` is deleted while claiming three source namespaces in
which it provisioned Roles.  After the cascade the managed-by labels are
gone, but all three Roles remain in the store — the cascade never deletes
the Role/RoleBinding objects (`cleanupUnmanagedSourceNamespaces` removes
labels only, despite `cleanupAllSourceNamespaces`' comment "removes labels
and resources"). -/
theorem cascadeLeavesRoles :
    (internalReconcileDeletion noFaults worldC4).err = none
    ∧ (internalReconcileDeletion noFaults worldC4).world.nss.all
        (fun n => lookupKey n.labels clusterArgoCDManagedByLabelKey == none) = true
    ∧ (internalReconcileDeletion noFaults worldC4).world.roles = worldC4.roles
    ∧ worldC4.roles.length = 3 := by
  refine ⟨rfl, rfl, rfl, rfl⟩

/-! ## Claim C6: the second reconcile pass still writes -/

/-- **C6.** With one source namespace, a first reconcile creates the label
and the Role; an immediately repeated reconcile with the same spec and no
external change still issues a write: `createRoleInSourceNamespace`
unconditionally `Update`s the existing Role (despite its "update if needed"
comment), so the second pass emits exactly one `Update` instead of zero
writes. -/
theorem secondPassStillWrites :
    (reconcileSourceNamespaces noFaults crA_apps worldC6).err = none
    ∧ (reconcileSourceNamespaces noFaults crA_apps worldC6).trace
      = [Ev.updateNamespace "ns1", Ev.createRole "ns1" "a-ns1-server"]
    ∧ (reconcileSourceNamespaces noFaults crA_apps
        (reconcileSourceNamespaces noFaults crA_apps worldC6).world).trace
      = [Ev.updateRole "ns1" "a-ns1-server"]
    ∧ (reconcileSourceNamespaces noFaults crA_apps
        (reconcileSourceNamespaces noFaults crA_apps worldC6).world).err = none := by
  refine ⟨rfl, rfl, rfl, rfl⟩

/-! ## Claim C7: a descriptor read error aborts the whole pass -/

/-- **C7, counterexample.** A non-NotFound read error on the first
ClusterRole makes `reconcileResources` return immediately: the trace shows
only the first phase marker — the ClusterRoleBindings, ServiceAccounts and
target-namespace descriptors of the same pass never run — and the
instance-level outcome is exactly that single error, not an aggregation. -/
theorem descriptorIsolation_counterexample :
    (reconcileResources faultsC7 crA_plain (emptyWorldFor crA_plain)).trace
      = [Ev.phase "ClusterRoles"]
    ∧ (reconcileResources faultsC7 crA_plain (emptyWorldFor crA_plain)).err
      = some "failed to get ClusterRole a-application-controller"
    ∧ Ev.phase "ServiceAccounts"
        ∉ (reconcileResources faultsC7 crA_plain (emptyWorldFor crA_plain)).trace := by
  refine ⟨rfl, rfl, by decide⟩

/-- Events emitted by a ClusterRole reconcile step are ClusterRole writes. -/
theorem reconcileClusterRole_trace_events (f : Faults) (componentName : String)
    (policyRules : List PolicyRule) (cr : ClusterArgoCD) (w : World) :
    ∀ e ∈ (reconcileClusterRole f componentName policyRules cr w).trace,
      (∃ n, e = Ev.createClusterRole n) ∨ (∃ n, e = Ev.updateClusterRole n) := by
  intro e he
  unfold reconcileClusterRole at he
  by_cases h1 : (f.getClusterRole.contains (generateClusterRoleName componentName cr)) = true
  · rw [if_pos h1] at he
    simp [errOut] at he
  · rw [if_neg h1] at he
    rcases hfind : (w.clusterRoles.find?
        (fun c => c.name == generateClusterRoleName componentName cr)) with _ | ⟨c⟩ <;>
      rw [hfind] at he
    · simp at he
      exact Or.inl ⟨_, he⟩
    · by_cases hup : clusterRoleNeedsUpdate c
        { name := generateClusterRoleName componentName cr
          labels := getLabelsForClusterArgoCD cr, rules := policyRules } = true
      · simp [hup] at he
        exact Or.inr ⟨_, he⟩
      · rw [Bool.not_eq_true] at hup
        simp [hup, okOut] at he

/-- The first-phase trace of `reconcileResources` never contains a
ServiceAccounts phase marker. -/
theorem reconcileClusterRoles_no_sa_marker (f : Faults) (cr : ClusterArgoCD) (w : World) :
    Ev.phase "ServiceAccounts" ∉ (reconcileClusterRoles f cr w).trace := by
  intro hmem
  unfold reconcileClusterRoles at hmem
  unfold andThen at hmem
  rcases h1 : (reconcileClusterRole f argoCDApplicationControllerComponent
      getApplicationControllerPolicyRules cr w).err with _ | ⟨e⟩ <;> rw [h1] at hmem
  · simp at hmem
    rcases hmem with hmem | hmem
    · rcases reconcileClusterRole_trace_events f _ _ cr w _ hmem with ⟨n, hn⟩ | ⟨n, hn⟩ <;>
        simp at hn
    · rcases reconcileClusterRole_trace_events f _ _ cr _ _ hmem with ⟨n, hn⟩ | ⟨n, hn⟩ <;>
        simp at hn
  · rcases reconcileClusterRole_trace_events f _ _ cr w _ hmem with ⟨n, hn⟩ | ⟨n, hn⟩ <;>
      simp at hn

/-- **C7, amended.** A read error in the ClusterRoles phase aborts the whole
`reconcileResources` pass at that phase: the outcome is exactly that single
error, and none of the later descriptors run — in particular the
ServiceAccounts phase is never entered. -/
theorem descriptorAbort_amended (f : Faults) (cr : ClusterArgoCD) (w : World) (e : String)
    (h : (reconcileClusterRoles f cr w).err = some e) :
    (reconcileResources f cr w).err = some e
    ∧ (reconcileResources f cr w).trace
      = Ev.phase "ClusterRoles" :: (reconcileClusterRoles f cr w).trace
    ∧ Ev.phase "ServiceAccounts" ∉ (reconcileResources f cr w).trace := by
  have hunf : reconcileResources f cr w
      = { world := (reconcileClusterRoles f cr w).world
          trace := Ev.phase "ClusterRoles" :: (reconcileClusterRoles f cr w).trace
          err := some e } := by
    unfold reconcileResources
    simp [andThen, h]
  refine ⟨by rw [hunf], by rw [hunf], ?_⟩
  rw [hunf]
  intro hmem
  simp at hmem
  exact reconcileClusterRoles_no_sa_marker f cr w hmem

/-- Witness for the amended C7 theorem at the counterexample's fault. -/
theorem descriptorAbort_amended_witness :
    (reconcileClusterRoles faultsC7 crA_plain (emptyWorldFor crA_plain)).err
      = some "failed to get ClusterRole a-application-controller"
    ∧ ((reconcileResources faultsC7 crA_plain (emptyWorldFor crA_plain)).err
        = some "failed to get ClusterRole a-application-controller"
      ∧ (reconcileResources faultsC7 crA_plain (emptyWorldFor crA_plain)).trace
        = Ev.phase "ClusterRoles"
          :: (reconcileClusterRoles faultsC7 crA_plain (emptyWorldFor crA_plain)).trace
      ∧ Ev.phase "ServiceAccounts"
          ∉ (reconcileResources faultsC7 crA_plain (emptyWorldFor crA_plain)).trace) :=
  ⟨rfl, descriptorAbort_amended faultsC7 crA_plain (emptyWorldFor crA_plain)
    "failed to get ClusterRole a-application-controller" rfl⟩

/-- Witness for the amended C1 theorem at concrete names. -/
theorem claimOverwrite_amended_witness :
    "a" ≠ "b"
    ∧ ((reconcileSourceNamespaces noFaults (crAppsOf "b" "ns1")
          (worldOneNs (crAppsOf "b" "ns1") "ns1"
            [(clusterArgoCDManagedByLabelKey, "a")])).err = none
      ∧ (reconcileSourceNamespaces noFaults (crAppsOf "b" "ns1")
          (worldOneNs (crAppsOf "b" "ns1") "ns1"
            [(clusterArgoCDManagedByLabelKey, "a")])).world.nss
        = [{ name := "ns1", labels := [(clusterArgoCDManagedByLabelKey, "b")] }]
      ∧ (reconcileSourceNamespaces noFaults (crAppsOf "b" "ns1")
          (worldOneNs (crAppsOf "b" "ns1") "ns1"
            [(clusterArgoCDManagedByLabelKey, "a")])).trace
        = [Ev.updateNamespace "ns1",
           Ev.createRole "ns1" ("b" ++ "-" ++ "ns1" ++ "-" ++ argoCDServerComponent)]) :=
  ⟨by decide, claimOverwrite_amended "a" "b" "ns1" (by decide)⟩

/-- Witness for the amended C2 theorem at concrete names. -/
theorem appSetClaimWithoutAppsClaim_amended_witness :
    "b" ≠ ""
    ∧ ((reconcileSourceNamespaces noFaults (crAppSetOf "b" "ns1")
          (worldOneNs (crAppSetOf "b" "ns1") "ns1" [])).err = none
      ∧ (reconcileSourceNamespaces noFaults (crAppSetOf "b" "ns1")
          (worldOneNs (crAppSetOf "b" "ns1") "ns1" [])).world.nss
        = [{ name := "ns1", labels := [(applicationSetManagedByLabelKey, "b")] }]
      ∧ (reconcileSourceNamespaces noFaults (crAppSetOf "b" "ns1")
          (worldOneNs (crAppSetOf "b" "ns1") "ns1" [])).trace
        = [Ev.updateNamespace "ns1"]) :=
  ⟨by decide, appSetClaimWithoutAppsClaim_amended "b" "ns1" (by decide)⟩

/-! ## Claim C8: `appendUniqueArgs`

Supporting lemmas about the removal loop and the two processing loops. -/

/-- A non-flag token is never equal to a flag token. -/
theorem ne_of_not_flag {f y : String} (hf : isFlag f = true) (hy : isFlag y = false) :
    y ≠ f := by
  intro h
  subst h
  rw [hf] at hy
  exact absurd hy (by simp)

/-- Removing a non-repeatable flag `g` never touches occurrences of a
different flag `f`. -/
theorem count_removeFlagOcc (g f : String) (hfg : f ≠ g) (hf : isFlag f = true) :
    ∀ l : List String, (removeFlagOcc g l).count f = l.count f := by
  intro l
  induction l using removeFlagOcc.induct g with
  | case1 => simp [removeFlagOcc]
  | case2 => simp [removeFlagOcc, Ne.symm hfg, List.count_cons]
  | case3 x hx => simp [removeFlagOcc, hx]
  | case4 x ys hx ih => simp [removeFlagOcc, hx, ih, List.count_cons, Ne.symm hfg]
  | case5 x ys hx ih =>
    have hxf := ne_of_not_flag hf (Bool.not_eq_true _ |>.mp hx)
    simp [removeFlagOcc, hx, ih, List.count_cons, Ne.symm hfg, hxf]
  | case6 x y ys hx ih => simp [removeFlagOcc, hx, ih, List.count_cons]

/-- `removeFlagOcc f` removes every occurrence of `f` itself. -/
theorem not_mem_removeFlagOcc_self (f : String) :
    ∀ l : List String, f ∉ removeFlagOcc f l := by
  intro l
  induction l using removeFlagOcc.induct f with
  | case1 => simp [removeFlagOcc]
  | case2 => simp [removeFlagOcc]
  | case3 x hx => simp [removeFlagOcc, hx, Ne.symm hx]
  | case4 x ys hx ih => simp [removeFlagOcc, hx, ih]
  | case5 x ys hx ih => simp [removeFlagOcc, hx, ih]
  | case6 x y ys hx ih => simp [removeFlagOcc, hx, Ne.symm hx, ih]

/-- Elements surviving `removeFlagOcc` were in the original list. -/
theorem mem_removeFlagOcc (g : String) :
    ∀ (l : List String) (x : String), x ∈ removeFlagOcc g l → x ∈ l := by
  intro l
  induction l using removeFlagOcc.induct g with
  | case1 => simp [removeFlagOcc]
  | case2 => simp [removeFlagOcc]
  | case3 x hx => simp [removeFlagOcc, hx]
  | case4 x ys hx ih =>
    intro z hz
    rw [removeFlagOcc] at hz
    simp [hx] at hz
    have := ih z hz
    simp at this ⊢
    tauto
  | case5 x ys hx ih =>
    intro z hz
    rw [removeFlagOcc] at hz
    simp [hx] at hz
    have := ih z hz
    simp at this ⊢
    tauto
  | case6 x y ys hx ih =>
    intro z hz
    rw [removeFlagOcc] at hz
    simp [hx] at hz
    rcases hz with hz | hz
    · simp [hz]
    · have := ih z hz
      simp at this ⊢
      tauto

/-- Removal of `g` distributes over a decomposition whose middle `[f, w]`
contains no `g` and starts with a flag: the adjacency of `f` and `w` is
preserved. -/
theorem removeFlagOcc_append_adj (g f w : String) (hf : isFlag f = true)
    (hfg : f ≠ g) (hwg : w ≠ g) (q : List String) :
    ∀ p : List String,
      removeFlagOcc g (p ++ f :: w :: q)
        = removeFlagOcc g p ++ f :: w :: removeFlagOcc g q := by
  have hbase : removeFlagOcc g (f :: w :: q) = f :: w :: removeFlagOcc g q := by
    cases q with
    | nil => simp [removeFlagOcc, hfg, hwg]
    | cons z q' => simp [removeFlagOcc, hfg, hwg]
  intro p
  induction p using removeFlagOcc.induct g with
  | case1 => simpa using hbase
  | case2 =>
    have h1 : removeFlagOcc g (g :: f :: w :: q) = removeFlagOcc g (f :: w :: q) := by
      rw [removeFlagOcc, if_pos rfl, if_pos hf]
    have h2 : removeFlagOcc g [g] = [] := by simp [removeFlagOcc]
    show removeFlagOcc g (g :: f :: w :: q) = removeFlagOcc g [g] ++ f :: w :: removeFlagOcc g q
    rw [h1, h2, hbase]
    rfl
  | case3 x hx =>
    have h1 : removeFlagOcc g (x :: f :: w :: q) = x :: removeFlagOcc g (f :: w :: q) := by
      rw [removeFlagOcc, if_neg hx]
    have h2 : removeFlagOcc g [x] = [x] := by simp [removeFlagOcc, hx]
    show removeFlagOcc g (x :: f :: w :: q) = removeFlagOcc g [x] ++ f :: w :: removeFlagOcc g q
    rw [h1, h2, hbase]
    rfl
  | case4 x ys hx ih =>
    have h1 : removeFlagOcc g (g :: x :: (ys ++ f :: w :: q))
        = removeFlagOcc g (x :: (ys ++ f :: w :: q)) := by
      rw [removeFlagOcc, if_pos rfl, if_pos hx]
    have h2 : removeFlagOcc g (g :: x :: ys) = removeFlagOcc g (x :: ys) := by
      rw [removeFlagOcc, if_pos rfl, if_pos hx]
    show removeFlagOcc g (g :: x :: (ys ++ f :: w :: q))
        = removeFlagOcc g (g :: x :: ys) ++ f :: w :: removeFlagOcc g q
    rw [h1, h2]
    exact ih
  | case5 x ys hx ih =>
    have hx' : isFlag x = false := Bool.not_eq_true _ |>.mp hx
    have h1 : removeFlagOcc g (g :: x :: (ys ++ f :: w :: q))
        = removeFlagOcc g (ys ++ f :: w :: q) := by
      rw [removeFlagOcc, if_pos rfl, if_neg (by simp [hx'])]
    have h2 : removeFlagOcc g (g :: x :: ys) = removeFlagOcc g ys := by
      rw [removeFlagOcc, if_pos rfl, if_neg (by simp [hx'])]
    show removeFlagOcc g (g :: x :: (ys ++ f :: w :: q))
        = removeFlagOcc g (g :: x :: ys) ++ f :: w :: removeFlagOcc g q
    rw [h1, h2]
    exact ih
  | case6 x y ys hx ih =>
    have h1 : removeFlagOcc g (x :: y :: (ys ++ f :: w :: q))
        = x :: removeFlagOcc g (y :: (ys ++ f :: w :: q)) := by
      rw [removeFlagOcc, if_neg hx]
    have h2 : removeFlagOcc g (x :: y :: ys) = x :: removeFlagOcc g (y :: ys) := by
      rw [removeFlagOcc, if_neg hx]
    simp only [List.cons_append] at ih ⊢
    rw [h1, h2, ih]
    simp

/-- Occurrence count of a flag token in the result of the first loop: the
base tokens are reproduced, so the count grows by the count in `cmd` (a flag
token never sits at a value position, values being non-flag). -/
theorem isFlag_empty : isFlag "" = false := by decide

theorem count_addToResult (f a val : String) (res : List String) (hval : val ≠ f) :
    (addToResult res a val).count f
      = res.count f + (if a = f then 1 else 0) := by
  by_cases h : val = "" <;>
    simp [addToResult, h, List.count_append, List.count_cons, hval]

theorem processCmd_count (f : String) (hf : isFlag f = true) :
    ∀ (cmd : List String) (st : ArgState),
      (processCmd cmd st).result.count f = st.result.count f + cmd.count f := by
  have hef : ("" : String) ≠ f := ne_of_not_flag hf isFlag_empty
  intro cmd st
  induction cmd, st using processCmd.induct with
  | case1 st => simp [processCmd]
  | case2 a st ha =>
    simp [processCmd, ha, stepCmdFlag, count_addToResult f a "" _ hef, List.count_cons]
  | case3 a st ha =>
    have := ne_of_not_flag hf (Bool.not_eq_true _ |>.mp ha)
    simp [processCmd, ha, List.count_append, List.count_cons, this]
  | case4 a b rest2 st ha hb ih =>
    rw [show processCmd (a :: b :: rest2) st
        = processCmd (b :: rest2) (stepCmdFlag st a "") by
      rw [processCmd, if_pos ha, if_pos hb]]
    rw [ih]
    simp [stepCmdFlag, count_addToResult f a "" _ hef, List.count_cons]
    ring
  | case5 a b rest2 st ha hb ih =>
    have hbf := ne_of_not_flag hf (Bool.not_eq_true _ |>.mp hb)
    rw [show processCmd (a :: b :: rest2) st
        = processCmd rest2 (stepCmdFlag st a b) by
      rw [processCmd, if_pos ha, if_neg (by simp [Bool.not_eq_true _ |>.mp hb])]]
    rw [ih]
    simp [stepCmdFlag, count_addToResult f a b _ hbf, List.count_cons, hbf]
    ring
  | case6 a b rest2 st ha ih =>
    have haf := ne_of_not_flag hf (Bool.not_eq_true _ |>.mp ha)
    rw [show processCmd (a :: b :: rest2) st
        = processCmd (b :: rest2) { st with result := st.result ++ [a] } by
      rw [processCmd, if_neg (by simp [Bool.not_eq_true _ |>.mp ha])]]
    rw [ih]
    simp [List.count_append, List.count_cons, haf]

/-- The non-repeatable set after the first loop: exactly the previous set
plus the flag tokens of `cmd`. -/
theorem processCmd_nonRepeatable (x : String) :
    ∀ (cmd : List String) (st : ArgState),
      x ∈ (processCmd cmd st).nonRepeatable
        ↔ x ∈ st.nonRepeatable ∨ (x ∈ cmd ∧ isFlag x = true) := by
  intro cmd st
  induction cmd, st using processCmd.induct with
  | case1 st => simp [processCmd]
  | case2 a st ha =>
    constructor
    · intro h
      simp [processCmd, ha, stepCmdFlag] at h
      rcases h with h | h
      · subst h; exact Or.inr ⟨by simp, ha⟩
      · exact Or.inl h
    · intro h
      simp [processCmd, ha, stepCmdFlag]
      rcases h with h | ⟨hm, hfl⟩
      · exact Or.inr h
      · simp at hm; subst hm; exact Or.inl rfl
  | case3 a st ha =>
    simp only [processCmd, ha, Bool.false_eq_true, if_false]
    constructor
    · intro h; exact Or.inl h
    · intro h
      rcases h with h | ⟨hm, hfl⟩
      · exact h
      · simp at hm; subst hm; rw [hfl] at ha; exact absurd rfl ha
  | case4 a b rest2 st ha hb ih =>
    simp only [processCmd, ha, hb, if_true]
    rw [ih]
    simp only [stepCmdFlag, List.mem_cons]
    constructor
    · intro h
      rcases h with (h | h) | h
      · subst h; exact Or.inr ⟨by simp, ha⟩
      · exact Or.inl h
      · exact Or.inr ⟨by simp [h.1], h.2⟩
    · intro h
      rcases h with h | ⟨hm, hfl⟩
      · exact Or.inl (Or.inr h)
      · rcases hm with hm | hm | hm
        · subst hm; exact Or.inl (Or.inl rfl)
        · subst hm; exact Or.inr ⟨by simp, hfl⟩
        · exact Or.inr ⟨by simp [hm], hfl⟩
  | case5 a b rest2 st ha hb ih =>
    have hb' : isFlag b = false := Bool.not_eq_true _ |>.mp hb
    simp only [processCmd, ha, hb, if_true, Bool.false_eq_true, if_false]
    rw [ih]
    simp only [stepCmdFlag, List.mem_cons]
    constructor
    · intro h
      rcases h with (h | h) | h
      · subst h; exact Or.inr ⟨by simp, ha⟩
      · exact Or.inl h
      · exact Or.inr ⟨by simp [h.1], h.2⟩
    · intro h
      rcases h with h | ⟨hm, hfl⟩
      · exact Or.inl (Or.inr h)
      · rcases hm with hm | hm | hm
        · subst hm; exact Or.inl (Or.inl rfl)
        · subst hm; rw [hfl] at hb'; simp at hb'
        · exact Or.inr ⟨by simp [hm], hfl⟩
  | case6 a b rest2 st ha ih =>
    have ha' : isFlag a = false := Bool.not_eq_true _ |>.mp ha
    simp only [processCmd, ha, Bool.false_eq_true, if_false]
    rw [ih]
    constructor
    · intro h
      rcases h with h | h
      · exact Or.inl h
      · exact Or.inr ⟨by simp [h.1], h.2⟩
    · intro h
      rcases h with h | ⟨hm, hfl⟩
      · exact Or.inl h
      · simp at hm
        rcases hm with hm | hm
        · subst hm; rw [hfl] at ha'; simp at ha'
        · exact Or.inr ⟨List.mem_cons.mpr hm, hfl⟩

/-- Pairs of a flag absent from `cmd` are untouched by the first loop. -/
theorem processCmd_repeated_not_mem (x y : String) :
    ∀ (cmd : List String) (st : ArgState), x ∉ cmd →
      ((x, y) ∈ (processCmd cmd st).repeated ↔ (x, y) ∈ st.repeated) := by
  intro cmd st
  induction cmd, st using processCmd.induct with
  | case1 st => intro _; simp [processCmd]
  | case2 a st ha =>
    intro hx
    have hxa : x ≠ a := by simpa using hx
    simp [processCmd, ha, stepCmdFlag, Prod.mk.injEq, hxa]
  | case3 a st ha =>
    intro hx
    simp [processCmd, ha]
  | case4 a b rest2 st ha hb ih =>
    intro hx
    simp at hx
    rw [show processCmd (a :: b :: rest2) st
        = processCmd (b :: rest2) (stepCmdFlag st a "") by
      rw [processCmd, if_pos ha, if_pos hb]]
    rw [ih (by simp [hx.2.1, hx.2.2])]
    simp [stepCmdFlag, Prod.mk.injEq, hx.1]
  | case5 a b rest2 st ha hb ih =>
    intro hx
    simp at hx
    rw [show processCmd (a :: b :: rest2) st
        = processCmd rest2 (stepCmdFlag st a b) by
      rw [processCmd, if_pos ha, if_neg (by simp [Bool.not_eq_true _ |>.mp hb])]]
    rw [ih (by simp [hx.2.2])]
    simp [stepCmdFlag, Prod.mk.injEq, hx.1]
  | case6 a b rest2 st ha ih =>
    intro hx
    simp at hx
    rw [show processCmd (a :: b :: rest2) st
        = processCmd (b :: rest2) { st with result := st.result ++ [a] } by
      rw [processCmd, if_neg (by simp [Bool.not_eq_true _ |>.mp ha])]]
    exact ih (by simp [hx.2.1, hx.2.2])

/-- The first loop splits over an append whose right part starts with a flag
(a flag token is never consumed as the preceding flag's value). -/
theorem processCmd_append_flag (f : String) (hf : isFlag f = true) (rest : List String) :
    ∀ (c1 : List String) (st : ArgState),
      processCmd (c1 ++ f :: rest) st = processCmd (f :: rest) (processCmd c1 st) := by
  intro c1 st
  induction c1, st using processCmd.induct with
  | case1 st => simp [processCmd]
  | case2 a st ha =>
    simp only [List.cons_append, List.nil_append]
    cases rest with
    | nil => simp [processCmd, ha, hf]
    | cons r rs => simp [processCmd, ha, hf]
  | case3 a st ha =>
    simp only [List.cons_append, List.nil_append]
    cases rest with
    | nil => simp [processCmd, ha, hf]
    | cons r rs => simp [processCmd, ha, hf]
  | case4 a b rest2 st ha hb ih =>
    simp only [List.cons_append]
    rw [processCmd, if_pos ha, if_pos hb]
    rw [show processCmd (a :: b :: rest2) st
        = processCmd (b :: rest2) (stepCmdFlag st a "") by
      rw [processCmd, if_pos ha, if_pos hb]]
    simpa using ih
  | case5 a b rest2 st ha hb ih =>
    have hb' : isFlag b = false := Bool.not_eq_true _ |>.mp hb
    simp only [List.cons_append]
    rw [processCmd, if_pos ha, if_neg (by simp [hb'])]
    rw [show processCmd (a :: b :: rest2) st
        = processCmd rest2 (stepCmdFlag st a b) by
      rw [processCmd, if_pos ha, if_neg (by simp [hb'])]]
    exact ih
  | case6 a b rest2 st ha ih =>
    have ha' : isFlag a = false := Bool.not_eq_true _ |>.mp ha
    simp only [List.cons_append]
    rw [processCmd, if_neg (by simp [ha'])]
    rw [show processCmd (a :: b :: rest2) st
        = processCmd (b :: rest2) { st with result := st.result ++ [a] } by
      rw [processCmd, if_neg (by simp [ha'])]]
    simpa using ih

/-- `stepExtraFlag` never touches the non-repeatable set (the second loop of
`appendUniqueArgs` only reads it). -/
theorem stepExtraFlag_nonRepeatable (st : ArgState) (a val : String) :
    (stepExtraFlag st a val).nonRepeatable = st.nonRepeatable := by
  rw [stepExtraFlag]
  by_cases h1 : (a, val) ∈ st.repeated
  · rw [if_pos h1]
  · rw [if_neg h1]
    by_cases h2 : a ∈ st.nonRepeatable
    · rw [if_pos h2]
    · rw [if_neg h2]

/-- The second loop never changes the non-repeatable set. -/
theorem processExtra_nonRepeatable :
    ∀ (l : List String) (st : ArgState),
      (processExtra l st).nonRepeatable = st.nonRepeatable := by
  intro l st
  induction l, st using processExtra.induct with
  | case1 st => rfl
  | case2 a st ha =>
    rw [show processExtra [a] st = stepExtraFlag st a "" by
      rw [processExtra, if_pos ha]]
    exact stepExtraFlag_nonRepeatable st a ""
  | case3 a st ha =>
    rw [show processExtra [a] st = { st with result := st.result ++ [a] } by
      rw [processExtra, if_neg ha]]
  | case4 a b rest2 st ha hb ih =>
    rw [show processExtra (a :: b :: rest2) st
        = processExtra (b :: rest2) (stepExtraFlag st a "") by
      rw [processExtra, if_pos ha, if_pos hb]]
    rw [ih, stepExtraFlag_nonRepeatable]
  | case5 a b rest2 st ha hb ih =>
    rw [show processExtra (a :: b :: rest2) st
        = processExtra rest2 (stepExtraFlag st a b) by
      rw [processExtra, if_pos ha, if_neg (by simp [Bool.not_eq_true _ |>.mp hb])]]
    rw [ih, stepExtraFlag_nonRepeatable]
  | case6 a b rest2 st ha ih =>
    rw [show processExtra (a :: b :: rest2) st
        = processExtra (b :: rest2) { st with result := st.result ++ [a] } by
      rw [processExtra, if_neg (by simp [Bool.not_eq_true _ |>.mp ha])]]
    exact ih

/-- The second loop splits over an append whose right part starts with a flag
(a flag token is never consumed as the preceding flag's value). -/
theorem processExtra_append_flag (f : String) (hf : isFlag f = true) (rest : List String) :
    ∀ (e1 : List String) (st : ArgState),
      processExtra (e1 ++ f :: rest) st = processExtra (f :: rest) (processExtra e1 st) := by
  intro e1 st
  induction e1, st using processExtra.induct with
  | case1 st => simp [processExtra]
  | case2 a st ha =>
    simp only [List.cons_append, List.nil_append]
    cases rest with
    | nil => simp [processExtra, ha, hf]
    | cons r rs => simp [processExtra, ha, hf]
  | case3 a st ha =>
    simp only [List.cons_append, List.nil_append]
    cases rest with
    | nil => simp [processExtra, ha, hf]
    | cons r rs => simp [processExtra, ha, hf]
  | case4 a b rest2 st ha hb ih =>
    simp only [List.cons_append]
    rw [processExtra, if_pos ha, if_pos hb]
    rw [show processExtra (a :: b :: rest2) st
        = processExtra (b :: rest2) (stepExtraFlag st a "") by
      rw [processExtra, if_pos ha, if_pos hb]]
    simpa using ih
  | case5 a b rest2 st ha hb ih =>
    have hb' : isFlag b = false := Bool.not_eq_true _ |>.mp hb
    simp only [List.cons_append]
    rw [processExtra, if_pos ha, if_neg (by simp [hb'])]
    rw [show processExtra (a :: b :: rest2) st
        = processExtra rest2 (stepExtraFlag st a b) by
      rw [processExtra, if_pos ha, if_neg (by simp [hb'])]]
    exact ih
  | case6 a b rest2 st ha ih =>
    have ha' : isFlag a = false := Bool.not_eq_true _ |>.mp ha
    simp only [List.cons_append]
    rw [processExtra, if_neg (by simp [ha'])]
    rw [show processExtra (a :: b :: rest2) st
        = processExtra (b :: rest2) { st with result := st.result ++ [a] } by
      rw [processExtra, if_neg (by simp [ha'])]]
    simpa using ih

/-- A single step of the second loop on a flag different from `f` leaves the
occurrence count of `f` in the result unchanged (the removal loop only drops
the stepped flag and its non-flag value tokens). -/
theorem stepExtraFlag_count_ne (f a val : String) (hf : isFlag f = true)
    (hfa : f ≠ a) (hvf : val ≠ f) (st : ArgState) :
    (stepExtraFlag st a val).result.count f = st.result.count f := by
  rw [stepExtraFlag]
  by_cases h1 : (a, val) ∈ st.repeated
  · rw [if_pos h1]
  · rw [if_neg h1]
    by_cases h2 : a ∈ st.nonRepeatable
    · rw [if_pos h2]
      show (addToResult (removeFlagOcc a st.result) a val).count f = _
      rw [count_addToResult f a val _ hvf, count_removeFlagOcc a f hfa hf]
      simp [Ne.symm hfa]
    · rw [if_neg h2]
      show (addToResult st.result a val).count f = _
      rw [count_addToResult f a val _ hvf]
      simp [Ne.symm hfa]

/-- A flag absent from the extra tokens keeps its result count through the
second loop. -/
theorem processExtra_count_not_mem (f : String) (hf : isFlag f = true) :
    ∀ (l : List String) (st : ArgState), f ∉ l →
      (processExtra l st).result.count f = st.result.count f := by
  intro l st
  induction l, st using processExtra.induct with
  | case1 st => intro _; rfl
  | case2 a st ha =>
    intro hx
    have hfa : f ≠ a := by simpa using hx
    rw [show processExtra [a] st = stepExtraFlag st a "" by
      rw [processExtra, if_pos ha]]
    exact stepExtraFlag_count_ne f a "" hf hfa (ne_of_not_flag hf isFlag_empty) st
  | case3 a st ha =>
    intro hx
    have haf : a ≠ f := Ne.symm (by simpa using hx)
    rw [show processExtra [a] st = { st with result := st.result ++ [a] } by
      rw [processExtra, if_neg ha]]
    simp [List.count_append, List.count_cons, haf]
  | case4 a b rest2 st ha hb ih =>
    intro hx
    simp at hx
    rw [show processExtra (a :: b :: rest2) st
        = processExtra (b :: rest2) (stepExtraFlag st a "") by
      rw [processExtra, if_pos ha, if_pos hb]]
    rw [ih (by simp [hx.2.1, hx.2.2])]
    exact stepExtraFlag_count_ne f a "" hf hx.1 (ne_of_not_flag hf isFlag_empty) st
  | case5 a b rest2 st ha hb ih =>
    intro hx
    simp at hx
    rw [show processExtra (a :: b :: rest2) st
        = processExtra rest2 (stepExtraFlag st a b) by
      rw [processExtra, if_pos ha, if_neg (by simp [Bool.not_eq_true _ |>.mp hb])]]
    rw [ih (by simp [hx.2.2])]
    exact stepExtraFlag_count_ne f a b hf hx.1 (Ne.symm hx.2.1) st
  | case6 a b rest2 st ha ih =>
    intro hx
    simp at hx
    rw [show processExtra (a :: b :: rest2) st
        = processExtra (b :: rest2) { st with result := st.result ++ [a] } by
      rw [processExtra, if_neg (by simp [Bool.not_eq_true _ |>.mp ha])]]
    rw [ih (by simp [hx.2.1, hx.2.2])]
    have haf : a ≠ f := Ne.symm hx.1
    simp [List.count_append, List.count_cons, haf]

/-- A single step of the second loop on a flag different from `x` neither adds
nor removes pairs of `x`. -/
theorem stepExtraFlag_repeated_ne (x y a val : String) (hxa : x ≠ a) (st : ArgState) :
    ((x, y) ∈ (stepExtraFlag st a val).repeated ↔ (x, y) ∈ st.repeated) := by
  rw [stepExtraFlag]
  by_cases h1 : (a, val) ∈ st.repeated
  · rw [if_pos h1]
  · rw [if_neg h1]
    by_cases h2 : a ∈ st.nonRepeatable
    · rw [if_pos h2]
      simp [List.mem_filter, Prod.mk.injEq, hxa]
    · rw [if_neg h2]
      simp [Prod.mk.injEq, hxa]

/-- Pairs of a flag absent from the extra tokens are untouched by the second
loop. -/
theorem processExtra_repeated_not_mem (x y : String) :
    ∀ (l : List String) (st : ArgState), x ∉ l →
      ((x, y) ∈ (processExtra l st).repeated ↔ (x, y) ∈ st.repeated) := by
  intro l st
  induction l, st using processExtra.induct with
  | case1 st => intro _; simp [processExtra]
  | case2 a st ha =>
    intro hx
    have hxa : x ≠ a := by simpa using hx
    rw [show processExtra [a] st = stepExtraFlag st a "" by
      rw [processExtra, if_pos ha]]
    exact stepExtraFlag_repeated_ne x y a "" hxa st
  | case3 a st ha =>
    intro hx
    rw [show processExtra [a] st = { st with result := st.result ++ [a] } by
      rw [processExtra, if_neg ha]]
  | case4 a b rest2 st ha hb ih =>
    intro hx
    simp at hx
    rw [show processExtra (a :: b :: rest2) st
        = processExtra (b :: rest2) (stepExtraFlag st a "") by
      rw [processExtra, if_pos ha, if_pos hb]]
    rw [ih (by simp [hx.2.1, hx.2.2])]
    exact stepExtraFlag_repeated_ne x y a "" hx.1 st
  | case5 a b rest2 st ha hb ih =>
    intro hx
    simp at hx
    rw [show processExtra (a :: b :: rest2) st
        = processExtra rest2 (stepExtraFlag st a b) by
      rw [processExtra, if_pos ha, if_neg (by simp [Bool.not_eq_true _ |>.mp hb])]]
    rw [ih (by simp [hx.2.2])]
    exact stepExtraFlag_repeated_ne x y a b hx.1 st
  | case6 a b rest2 st ha ih =>
    intro hx
    simp at hx
    rw [show processExtra (a :: b :: rest2) st
        = processExtra (b :: rest2) { st with result := st.result ++ [a] } by
      rw [processExtra, if_neg (by simp [Bool.not_eq_true _ |>.mp ha])]]
    exact ih (by simp [hx.2.1, hx.2.2])

/-- A second-loop step on a flag `a` different from `f` preserves the shape
invariant "the result contains `f` followed by `w` exactly once": the removal
loop of a replacement removes only `a`-occurrences and their non-flag values,
so the adjacent `f w` block survives, and appended tokens differ from `f`. -/
theorem stepExtraFlag_inv (f w a val : String) (hf : isFlag f = true)
    (hw : isFlag w = false) (ha : isFlag a = true) (hfa : f ≠ a) (hvalf : val ≠ f)
    (st : ArgState) (p q : List String)
    (hres : st.result = p ++ f :: w :: q) (hp : f ∉ p) (hq : f ∉ q) :
    ∃ p2 q2, (stepExtraFlag st a val).result = p2 ++ f :: w :: q2 ∧ f ∉ p2 ∧ f ∉ q2 := by
  rw [stepExtraFlag]
  by_cases h1 : (a, val) ∈ st.repeated
  · rw [if_pos h1]; exact ⟨p, q, hres, hp, hq⟩
  · rw [if_neg h1]
    by_cases h2 : a ∈ st.nonRepeatable
    · rw [if_pos h2]
      have hadj : removeFlagOcc a st.result
          = removeFlagOcc a p ++ f :: w :: removeFlagOcc a q := by
        rw [hres]
        exact removeFlagOcc_append_adj a f w hf hfa (ne_of_not_flag ha hw) q p
      refine ⟨removeFlagOcc a p,
        removeFlagOcc a q ++ (if val = "" then [a] else [a, val]), ?_, ?_, ?_⟩
      · show addToResult (removeFlagOcc a st.result) a val = _
        rw [hadj, addToResult]
        by_cases hv : val = ""
        · rw [if_pos hv, if_pos hv]; simp
        · rw [if_neg hv, if_neg hv]; simp
      · intro hmem; exact hp (mem_removeFlagOcc a p f hmem)
      · intro hmem
        rcases List.mem_append.mp hmem with hmem | hmem
        · exact hq (mem_removeFlagOcc a q f hmem)
        · by_cases hv : val = ""
          · rw [if_pos hv] at hmem; simp at hmem; exact hfa hmem
          · rw [if_neg hv] at hmem; simp at hmem
            rcases hmem with hmem | hmem
            · exact hfa hmem
            · exact hvalf hmem.symm
    · rw [if_neg h2]
      refine ⟨p, q ++ (if val = "" then [a] else [a, val]), ?_, hp, ?_⟩
      · show addToResult st.result a val = _
        rw [hres, addToResult]
        by_cases hv : val = ""
        · rw [if_pos hv, if_pos hv]; simp
        · rw [if_neg hv, if_neg hv]; simp
      · intro hmem
        rcases List.mem_append.mp hmem with hmem | hmem
        · exact hq hmem
        · by_cases hv : val = ""
          · rw [if_pos hv] at hmem; simp at hmem; exact hfa hmem
          · rw [if_neg hv] at hmem; simp at hmem
            rcases hmem with hmem | hmem
            · exact hfa hmem
            · exact hvalf hmem.symm

/-- The second loop preserves the "`f w` block present exactly once" shape of
the result as long as `f` itself does not occur among the processed tokens. -/
theorem processExtra_inv (f w : String) (hf : isFlag f = true) (hw : isFlag w = false) :
    ∀ (l : List String) (st : ArgState), f ∉ l →
      (∃ p q, st.result = p ++ f :: w :: q ∧ f ∉ p ∧ f ∉ q) →
      ∃ p q, (processExtra l st).result = p ++ f :: w :: q ∧ f ∉ p ∧ f ∉ q := by
  intro l st
  induction l, st using processExtra.induct with
  | case1 st => intro _ h; exact h
  | case2 a st ha =>
    intro hx h
    obtain ⟨p, q, hres, hp, hq⟩ := h
    have hfa : f ≠ a := by simpa using hx
    rw [show processExtra [a] st = stepExtraFlag st a "" by
      rw [processExtra, if_pos ha]]
    exact stepExtraFlag_inv f w a "" hf hw ha hfa
      (ne_of_not_flag hf isFlag_empty) st p q hres hp hq
  | case3 a st ha =>
    intro hx h
    obtain ⟨p, q, hres, hp, hq⟩ := h
    have hfa : f ≠ a := by simpa using hx
    rw [show processExtra [a] st = { st with result := st.result ++ [a] } by
      rw [processExtra, if_neg ha]]
    refine ⟨p, q ++ [a], ?_, hp, ?_⟩
    · show st.result ++ [a] = _
      rw [hres]; simp
    · intro hmem
      rcases List.mem_append.mp hmem with hmem | hmem
      · exact hq hmem
      · simp at hmem; exact hfa hmem
  | case4 a b rest2 st ha hb ih =>
    intro hx h
    obtain ⟨p, q, hres, hp, hq⟩ := h
    simp at hx
    rw [show processExtra (a :: b :: rest2) st
        = processExtra (b :: rest2) (stepExtraFlag st a "") by
      rw [processExtra, if_pos ha, if_pos hb]]
    exact ih (by simp [hx.2.1, hx.2.2])
      (stepExtraFlag_inv f w a "" hf hw ha hx.1
        (ne_of_not_flag hf isFlag_empty) st p q hres hp hq)
  | case5 a b rest2 st ha hb ih =>
    intro hx h
    obtain ⟨p, q, hres, hp, hq⟩ := h
    simp at hx
    rw [show processExtra (a :: b :: rest2) st
        = processExtra rest2 (stepExtraFlag st a b) by
      rw [processExtra, if_pos ha, if_neg (by simp [Bool.not_eq_true _ |>.mp hb])]]
    exact ih (by simp [hx.2.2])
      (stepExtraFlag_inv f w a b hf hw ha hx.1 (Ne.symm hx.2.1) st p q hres hp hq)
  | case6 a b rest2 st ha ih =>
    intro hx h
    obtain ⟨p, q, hres, hp, hq⟩ := h
    simp at hx
    rw [show processExtra (a :: b :: rest2) st
        = processExtra (b :: rest2) { st with result := st.result ++ [a] } by
      rw [processExtra, if_neg (by simp [Bool.not_eq_true _ |>.mp ha])]]
    refine ih (by simp [hx.2.1, hx.2.2]) ⟨p, q ++ [a], ?_, hp, ?_⟩
    · show st.result ++ [a] = _
      rw [hres]; simp
    · intro hmem
      rcases List.mem_append.mp hmem with hmem | hmem
      · exact hq hmem
      · simp at hmem; exact hx.1 hmem

/-- A second-loop step on an exact flag-and-value duplicate is a no-op
(util.go: the `repeated[arg][val]` hit skips the token and its value). -/
theorem stepExtraFlag_dup (st : ArgState) (g val : String)
    (hd : (g, val) ∈ st.repeated) : stepExtraFlag st g val = st := by
  rw [stepExtraFlag, if_pos hd]

/-- A second-loop step on a repeatable flag (not marked non-repeatable) with a
new value appends the flag and its value and records the pair. -/
theorem stepExtraFlag_fresh (st : ArgState) (g val : String) (hval : val ≠ "")
    (hd : (g, val) ∉ st.repeated) (hn : g ∉ st.nonRepeatable) :
    stepExtraFlag st g val
      = { repeated := (g, val) :: st.repeated
          nonRepeatable := st.nonRepeatable
          result := st.result ++ [g, val] } := by
  rw [stepExtraFlag, if_neg hd, if_neg hn, addToResult, if_neg hval]

/-- After the first loop on `c1 ++ f :: v :: c2` (with `f` a flag occurring
only there and `v` a non-flag value token), the recorded pairs of `f` are
exactly `(f, v)`. -/
theorem processCmd_pair_unique (f v : String) (hf : isFlag f = true)
    (hv : isFlag v = false) (c1 c2 : List String) (h1 : f ∉ c1) (h2 : f ∉ c2)
    (y : String) :
    ((f, y) ∈ (processCmd (c1 ++ f :: v :: c2) (⟨[], [], []⟩ : ArgState)).repeated
      ↔ y = v) := by
  rw [processCmd_append_flag f hf (v :: c2) c1 ⟨[], [], []⟩]
  rw [show processCmd (f :: v :: c2) (processCmd c1 (⟨[], [], []⟩ : ArgState))
      = processCmd c2 (stepCmdFlag (processCmd c1 (⟨[], [], []⟩ : ArgState)) f v) by
    rw [processCmd, if_pos hf, if_neg (by simp [hv])]]
  rw [processCmd_repeated_not_mem f y c2 _ h2]
  have hc1 : ((f, y) ∈ (processCmd c1 (⟨[], [], []⟩ : ArgState)).repeated ↔ False) := by
    rw [processCmd_repeated_not_mem f y c1 _ h1]
    simp only [iff_false]
    exact List.not_mem_nil _
  simp [stepCmdFlag, Prod.mk.injEq, hc1]

/-- C8: merge semantics of `appendUniqueArgs` (util.go:275-363).
(i) Replacement: a flag `f` supplied by both the base command (with value `v`)
and the override list (with a different value `w`) appears exactly once in the
merged list, carrying the override value `w` in place of the base value —
the base occurrence is removed, never duplicated.
(ii) Repeatable: a flag `g` not present in the base command may appear
multiple times — two override occurrences with distinct values both land in
the result, so `g` occurs twice.
(iii) An exact flag-and-value duplicate is never appended a second time: two
identical override occurrences produce a single `g` in the result. -/
theorem appendUniqueArgs_merge :
    (∀ (f v w : String) (c1 c2 e1 e2 : List String),
        isFlag f = true → isFlag v = false → isFlag w = false →
        w ≠ "" → w ≠ v →
        f ∉ c1 → f ∉ c2 → f ∉ e1 → f ∉ e2 →
        ∃ p q, appendUniqueArgs (c1 ++ f :: v :: c2) (e1 ++ f :: w :: e2)
            = p ++ f :: w :: q ∧ f ∉ p ∧ f ∉ q)
    ∧ (∀ (g v1 v2 : String) (cmd e1 : List String),
        isFlag g = true → isFlag v1 = false → isFlag v2 = false →
        v1 ≠ "" → v2 ≠ "" → v1 ≠ v2 → g ∉ cmd → g ∉ e1 →
        (appendUniqueArgs cmd (e1 ++ [g, v1, g, v2])).count g = 2)
    ∧ (∀ (g v : String) (cmd e1 : List String),
        isFlag g = true → isFlag v = false → v ≠ "" → g ∉ cmd → g ∉ e1 →
        (appendUniqueArgs cmd (e1 ++ [g, v, g, v])).count g = 1) := by
  refine ⟨?_, ?_, ?_⟩
  · intro f v w c1 c2 e1 e2 hf hv hw hwne hwv hfc1 hfc2 hfe1 hfe2
    have hnr : f ∈ (processExtra e1
        (processCmd (c1 ++ f :: v :: c2) (⟨[], [], []⟩ : ArgState))).nonRepeatable := by
      rw [processExtra_nonRepeatable]
      exact (processCmd_nonRepeatable f (c1 ++ f :: v :: c2) ⟨[], [], []⟩).mpr
        (Or.inr ⟨by simp, hf⟩)
    have hnd : (f, w) ∉ (processExtra e1
        (processCmd (c1 ++ f :: v :: c2) (⟨[], [], []⟩ : ArgState))).repeated := by
      rw [processExtra_repeated_not_mem f w e1 _ hfe1,
          processCmd_pair_unique f v hf hv c1 c2 hfc1 hfc2 w]
      exact hwv
    rw [appendUniqueArgs, processExtra_append_flag f hf (w :: e2) e1 _]
    set st1 := processExtra e1
      (processCmd (c1 ++ f :: v :: c2) (⟨[], [], []⟩ : ArgState)) with hst1
    rw [show processExtra (f :: w :: e2) st1 = processExtra e2 (stepExtraFlag st1 f w) by
      rw [processExtra, if_pos hf, if_neg (by simp [hw])]]
    refine processExtra_inv f w hf hw e2 _ hfe2 ?_
    refine ⟨removeFlagOcc f st1.result, [], ?_, not_mem_removeFlagOcc_self f _, by simp⟩
    rw [stepExtraFlag, if_neg hnd, if_pos hnr]
    simp [addToResult, hwne]
  · intro g v1 v2 cmd e1 hg hv1 hv2 hv1ne hv2ne hne hgc hge1
    have hc0 : (processCmd cmd (⟨[], [], []⟩ : ArgState)).result.count g = 0 := by
      rw [processCmd_count g hg cmd ⟨[], [], []⟩, List.count_eq_zero.mpr hgc]
      simp
    have hcount1 : (processExtra e1
        (processCmd cmd (⟨[], [], []⟩ : ArgState))).result.count g = 0 := by
      rw [processExtra_count_not_mem g hg e1 _ hge1, hc0]
    have hnr1 : g ∉ (processExtra e1
        (processCmd cmd (⟨[], [], []⟩ : ArgState))).nonRepeatable := by
      rw [processExtra_nonRepeatable, processCmd_nonRepeatable g cmd ⟨[], [], []⟩]
      rintro (h | h)
      · exact List.not_mem_nil g h
      · exact hgc h.1
    have hrep1 : ∀ y, (g, y) ∉ (processExtra e1
        (processCmd cmd (⟨[], [], []⟩ : ArgState))).repeated := by
      intro y
      rw [processExtra_repeated_not_mem g y e1 _ hge1,
          processCmd_repeated_not_mem g y cmd _ hgc]
      exact List.not_mem_nil _
    rw [appendUniqueArgs, processExtra_append_flag g hg [v1, g, v2] e1 _]
    set st1 := processExtra e1 (processCmd cmd (⟨[], [], []⟩ : ArgState)) with hst1
    rw [show processExtra (g :: [v1, g, v2]) st1
        = processExtra [g, v2] (stepExtraFlag st1 g v1) by
      rw [processExtra, if_pos hg, if_neg (by simp [hv1])]]
    rw [stepExtraFlag_fresh st1 g v1 hv1ne (hrep1 v1) hnr1]
    rw [show processExtra [g, v2]
          ({ repeated := (g, v1) :: st1.repeated
             nonRepeatable := st1.nonRepeatable
             result := st1.result ++ [g, v1] } : ArgState)
        = stepExtraFlag
            { repeated := (g, v1) :: st1.repeated
              nonRepeatable := st1.nonRepeatable
              result := st1.result ++ [g, v1] } g v2 by
      rw [processExtra, if_pos hg, if_neg (by simp [hv2]), processExtra]]
    have hd2 : ((g : String), v2) ∉ ({ repeated := (g, v1) :: st1.repeated, nonRepeatable := st1.nonRepeatable, result := st1.result ++ [g, v1] } : ArgState).repeated := by
      show ((g : String), v2) ∉ (g, v1) :: st1.repeated
      intro h
      rcases List.mem_cons.mp h with h | h
      · exact hne (Prod.ext_iff.mp h).2.symm
      · exact hrep1 v2 h
    have hn2 : g ∉ ({ repeated := (g, v1) :: st1.repeated, nonRepeatable := st1.nonRepeatable, result := st1.result ++ [g, v1] } : ArgState).nonRepeatable := hnr1
    rw [stepExtraFlag_fresh _ g v2 hv2ne hd2 hn2]
    simp [List.count_append, List.count_cons, hcount1,
      ne_of_not_flag hg hv1, ne_of_not_flag hg hv2]
  · intro g v cmd e1 hg hv hvne hgc hge1
    have hc0 : (processCmd cmd (⟨[], [], []⟩ : ArgState)).result.count g = 0 := by
      rw [processCmd_count g hg cmd ⟨[], [], []⟩, List.count_eq_zero.mpr hgc]
      simp
    have hcount1 : (processExtra e1
        (processCmd cmd (⟨[], [], []⟩ : ArgState))).result.count g = 0 := by
      rw [processExtra_count_not_mem g hg e1 _ hge1, hc0]
    have hnr1 : g ∉ (processExtra e1
        (processCmd cmd (⟨[], [], []⟩ : ArgState))).nonRepeatable := by
      rw [processExtra_nonRepeatable, processCmd_nonRepeatable g cmd ⟨[], [], []⟩]
      rintro (h | h)
      · exact List.not_mem_nil g h
      · exact hgc h.1
    have hrep1 : ∀ y, (g, y) ∉ (processExtra e1
        (processCmd cmd (⟨[], [], []⟩ : ArgState))).repeated := by
      intro y
      rw [processExtra_repeated_not_mem g y e1 _ hge1,
          processCmd_repeated_not_mem g y cmd _ hgc]
      exact List.not_mem_nil _
    rw [appendUniqueArgs, processExtra_append_flag g hg [v, g, v] e1 _]
    set st1 := processExtra e1 (processCmd cmd (⟨[], [], []⟩ : ArgState)) with hst1
    rw [show processExtra (g :: [v, g, v]) st1
        = processExtra [g, v] (stepExtraFlag st1 g v) by
      rw [processExtra, if_pos hg, if_neg (by simp [hv])]]
    rw [stepExtraFlag_fresh st1 g v hvne (hrep1 v) hnr1]
    rw [show processExtra [g, v]
          ({ repeated := (g, v) :: st1.repeated
             nonRepeatable := st1.nonRepeatable
             result := st1.result ++ [g, v] } : ArgState)
        = stepExtraFlag
            { repeated := (g, v) :: st1.repeated
              nonRepeatable := st1.nonRepeatable
              result := st1.result ++ [g, v] } g v by
      rw [processExtra, if_pos hg, if_neg (by simp [hv]), processExtra]]
    rw [stepExtraFlag_dup _ g v
      (by show ((g : String), v) ∈ (g, v) :: st1.repeated; exact List.mem_cons_self _ _)]
    simp [List.count_append, List.count_cons, hcount1, ne_of_not_flag hg hv]

/-- Concrete instantiation of the merge semantics: an overridden flag carries
the override value once; a repeatable flag with two distinct values occurs
twice; an exact duplicate occurs once. -/
theorem appendUniqueArgs_merge_witness :
    (∃ p q, appendUniqueArgs ["--insecure", "false"] ["--insecure", "true"]
        = p ++ "--insecure" :: "true" :: q ∧ "--insecure" ∉ p ∧ "--insecure" ∉ q)
    ∧ (appendUniqueArgs ["run"] ["--label", "a", "--label", "b"]).count "--label" = 2
    ∧ (appendUniqueArgs ["run"] ["--label", "a", "--label", "a"]).count "--label" = 1 := by
  refine ⟨?_, ?_, ?_⟩
  · exact appendUniqueArgs_merge.1 "--insecure" "false" "true" [] [] [] []
      (by decide) (by decide) (by decide) (by decide) (by decide)
      (by decide) (by decide) (by decide) (by decide)
  · exact appendUniqueArgs_merge.2.1 "--label" "a" "b" ["run"] []
      (by decide) (by decide) (by decide) (by decide) (by decide) (by decide)
      (by decide) (by decide)
  · exact appendUniqueArgs_merge.2.2 "--label" "a" ["run"] []
      (by decide) (by decide) (by decide) (by decide) (by decide)

end ArgoCDOperator
